import Mathlib

/-!
LineInfo: one line of text and its end-of-line units.

A shallow embedding of `Externals/crystaledit/editlib/LineInfo.cpp`.

* A code unit (`tchar_t`) is a natural number; `'\0'` is `0`, `'\n'` is `10`, `'\r'` is `13`.
* A heap block is the list of its units, so the length of the list is the number of units that
  were allocated.  `m_pcLine = nullptr` is `none`.
* An operation that would read or write outside a block, read through a null pointer, or make an
  unsigned count wrap below zero has no result in the model: it returns `none`.
* `new tchar_t[n]` without `ZeroMemory` yields a block whose units are not determined by the
  program; the operations that allocate this way take the contents of the fresh block as the
  parameter `junk` (offset to unit).
* `ALIGN_BUF_SIZE` is a macro of `LineInfo.h`; the operations take the rounding function as the
  parameter `align`, and the theorems assume of it only what the design states: `n ≤ align n`.
-/

/-! ## Memory primitives -/

/-- A block of `n` units obtained from `new tchar_t[n]`: unit `i` of it is `junk i`. -/
def newBlock (junk : Nat → Nat) (n : Nat) : List Nat :=
  (List.range n).map junk

/-- The C `memcpy (dst + dOff, src + sOff, n units)`. The `n` source units are read before any
unit is written, which is what the forward copy in `Delete` relies on. -/
def memcpy (dst : List Nat) (dOff : Nat) (src : List Nat) (sOff n : Nat) : Option (List Nat) :=
  if sOff + n ≤ src.length ∧ dOff + n ≤ dst.length then
    some (dst.take dOff ++ ((src.drop sOff).take n ++ dst.drop (dOff + n)))
  else
    none

/-- The store `buf[i] = v`. -/
def poke (buf : List Nat) (i v : Nat) : Option (List Nat) :=
  if i < buf.length then some (buf.set i v) else none

/-- The load `buf[i]`. -/
def peek (buf : List Nat) (i : Nat) : Option Nat :=
  buf[i]?

/-- The C `tcslen`: the number of units before the first zero unit of the string at `p`. -/
def tcslen : List Nat → Option Nat
  | [] => none
  | c :: cs => if c = 0 then some 0 else (tcslen cs).map (fun k => k + 1)

/-- The C `tcscmp` of the zero-terminated strings at `p` and `q`: negative, zero or positive. -/
def tcscmp : List Nat → List Nat → Option Int
  | a :: p, b :: q =>
    if a < b then some (-1)
    else if b < a then some 1
    else if a = 0 then some 0
    else tcscmp p q
  | _, _ => none

/-- Modelled from the spec: the block-size rounding macro `ALIGN_BUF_SIZE` of `LineInfo.h`, which
is not among the source files: round up to the next multiple of the alignment constant
`CHAR_ALIGN`. -/
def ALIGN_BUF_SIZE (CHAR_ALIGN size : Nat) : Nat :=
  (size / CHAR_ALIGN) * CHAR_ALIGN + CHAR_ALIGN

/-! ## The line buffer -/

/-- The data members of the class `LineInfo`. -/
structure LineInfo where
  /-- The block holding body, end-of-line units and the closing zero; `none` is `nullptr`. -/
  m_pcLine : Option (List Nat)
  /-- The number of body units. -/
  m_nLength : Nat
  /-- The recorded size of the block. -/
  m_nMax : Nat
  /-- The number of end-of-line units. -/
  m_nEolChars : Nat
  /-- The line flags, owned by the text buffer. -/
  m_dwFlags : Nat
  /-- The revision number, owned by the text buffer. -/
  m_dwRevisionNumber : Nat
deriving DecidableEq

namespace LineInfo

/-- The constructor `LineInfo::LineInfo()`. -/
def init : LineInfo :=
  { m_pcLine := none, m_nLength := 0, m_nMax := 0, m_nEolChars := 0,
    m_dwFlags := 0, m_dwRevisionNumber := 0 }

/-- Modelled from the spec: the inline accessor `Length()` of `LineInfo.h`, the content length
without the end-of-line units. -/
def Length (s : LineInfo) : Nat :=
  s.m_nLength

/-- Modelled from the spec: the inline accessor `FullLength()` of `LineInfo.h`, the content length
plus the end-of-line length. -/
def FullLength (s : LineInfo) : Nat :=
  s.m_nLength + s.m_nEolChars

/-- Modelled from the spec: the static helper `IsEol` of `LineInfo.h`: the unit is a line-feed or
a carriage-return. -/
def IsEol (ch : Nat) : Bool :=
  ch == 13 || ch == 10

/-- Modelled from the spec: the static helper `IsDosEol` of `LineInfo.h`, applied to `&buf[i]`:
the unit there is a carriage-return and the next one a line-feed. The second unit is read only
when the first one is a carriage-return. -/
def IsDosEol (buf : List Nat) (i : Nat) : Option Bool :=
  match peek buf i with
  | none => none
  | some c =>
    if c = 13 then
      match peek buf (i + 1) with
      | none => none
      | some d => some (d == 10)
    else
      some false

/-- `LineInfo::Clear` (lines 31-43). -/
def Clear (s : LineInfo) : LineInfo :=
  match s.m_pcLine with
  | some _ =>
    { m_pcLine := none, m_nLength := 0, m_nMax := 0, m_nEolChars := 0,
      m_dwFlags := 0, m_dwRevisionNumber := 0 }
  | none => s

/-- `LineInfo::FreeBuffer` (lines 49-59). -/
def FreeBuffer (s : LineInfo) : LineInfo :=
  match s.m_pcLine with
  | some _ => { s with m_pcLine := none, m_nLength := 0, m_nMax := 0, m_nEolChars := 0 }
  | none => s

/-- `LineInfo::CreateEmpty` (lines 100-108): the new block is zeroed in full. -/
def CreateEmpty (align : Nat → Nat) (s : LineInfo) : LineInfo :=
  let m_nLength := 0
  let m_nMax := align (m_nLength + 1)
  { s with m_pcLine := some (List.replicate m_nMax 0), m_nLength := m_nLength,
           m_nMax := m_nMax, m_nEolChars := 0 }

/-- `LineInfo::Create` (lines 66-95). `pszLine` is the memory at the pointer passed in. -/
def Create (align : Nat → Nat) (s : LineInfo) (pszLine : List Nat) (nLength : Nat) :
    Option LineInfo :=
  if nLength = 0 then
    some (CreateEmpty align s)
  else
    let m_nLength := nLength
    let m_nMax := align (m_nLength + 1)
    -- new tchar_t[m_nMax] followed by ZeroMemory over the whole block
    let blk := List.replicate m_nMax 0
    match memcpy blk 0 pszLine 0 m_nLength with
    | none => none
    | some blk1 =>
      match poke blk1 m_nLength 0 with
      | none => none
      | some blk2 =>
        match (if nLength > 1 then IsDosEol pszLine (nLength - 2) else some false) with
        | none => none
        | some true =>
          some { s with m_pcLine := some blk2, m_nLength := m_nLength - 2, m_nMax := m_nMax,
                        m_nEolChars := 2 }
        | some false =>
          match peek pszLine (nLength - 1) with
          | none => none
          | some c =>
            let nEols := if IsEol c then 1 else 0
            some { s with m_pcLine := some blk2, m_nLength := m_nLength - nEols,
                          m_nMax := m_nMax, m_nEolChars := nEols }

/-- The reallocation both `Append` (lines 119-129) and `ChangeEol` (lines 192-201) perform when
`nBufNeeded > m_nMax`: a fresh block of `ALIGN_BUF_SIZE (nBufNeeded)` units, into which the
`FullLength() + 1` leading units of the old block are copied unless `FullLength()` is zero.
Returns the new `m_nMax` and the new `m_pcLine`. -/
def grow (align : Nat → Nat) (junk : Nat → Nat) (s : LineInfo) (nBufNeeded : Nat) :
    Option (Nat × Option (List Nat)) :=
  if nBufNeeded > s.m_nMax then
    let m_nMax := align nBufNeeded
    let pcNewBuf := newBlock junk m_nMax
    if s.FullLength > 0 then
      match s.m_pcLine with
      | none => none
      | some old =>
        match memcpy pcNewBuf 0 old 0 (s.FullLength + 1) with
        | none => none
        | some blk => some (m_nMax, some blk)
    else
      some (m_nMax, some pcNewBuf)
  else
    some (s.m_nMax, s.m_pcLine)

/-- `LineInfo::Append` (lines 115-150). `pszChars` is the memory at the pointer passed in. -/
def Append (align : Nat → Nat) (junk : Nat → Nat) (s : LineInfo) (pszChars : List Nat)
    (nLength : Nat) (bDetectEol : Bool) : Option LineInfo :=
  let nBufNeeded := s.m_nLength + s.m_nEolChars + nLength + 1
  match grow align junk s nBufNeeded with
  | none => none
  | some (_, none) => none
  | some (m_nMax, some blk) =>
    match memcpy blk (s.m_nLength + s.m_nEolChars) pszChars 0 nLength with
    | none => none
    | some blk1 =>
      let m_nLength := s.m_nLength + (nLength + s.m_nEolChars)
      match poke blk1 m_nLength 0 with
      | none => none
      | some blk2 =>
        if !bDetectEol then
          some { s with m_pcLine := some blk2, m_nLength := m_nLength, m_nMax := m_nMax }
        else
          match (if nLength > 1 then IsDosEol blk2 (m_nLength - 2) else some false) with
          | none => none
          | some true =>
            some { s with m_pcLine := some blk2, m_nLength := m_nLength - 2, m_nMax := m_nMax,
                          m_nEolChars := 2 }
          | some false =>
            -- m_pcLine[m_nLength - 1]: with m_nLength = 0 the index wraps, outside the block
            if m_nLength = 0 then none
            else
              match peek blk2 (m_nLength - 1) with
              | none => none
              | some c =>
                let m_nEolChars := if IsEol c then 1 else s.m_nEolChars
                if m_nEolChars ≤ m_nLength then
                  some { s with m_pcLine := some blk2, m_nLength := m_nLength - m_nEolChars,
                                m_nMax := m_nMax, m_nEolChars := m_nEolChars }
                else
                  none

/-- `LineInfo::HasEol` (lines 156-162). -/
def HasEol (s : LineInfo) : Bool :=
  if s.m_nEolChars ≠ 0 then true else false

/-- `LineInfo::GetEol` (lines 168-174): the view that starts at `&m_pcLine[Length()]`, or `none`
for the null pointer returned when the line has no end-of-line units. -/
def GetEol (s : LineInfo) : Option (List Nat) :=
  if s.HasEol then
    match s.m_pcLine with
    | none => none
    | some blk => some (blk.drop s.Length)
  else
    none

/-- `LineInfo::GetLine` (lines 280-283): the view that starts at `&m_pcLine[index]`. -/
def GetLine (s : LineInfo) (index : Nat) : Option (List Nat) :=
  match s.m_pcLine with
  | none => none
  | some blk => if index ≤ blk.length then some (blk.drop index) else none

/-- `LineInfo::ChangeEol` (lines 181-207). `lpEOL` is the memory at the pointer passed in. The
result is the returned flag together with the state after the call. -/
def ChangeEol (align : Nat → Nat) (junk : Nat → Nat) (s : LineInfo) (lpEOL : List Nat) :
    Option (Bool × LineInfo) :=
  match tcslen lpEOL with
  | none => none
  | some nNewEolChars =>
    let same : Option Bool :=
      if nNewEolChars = s.m_nEolChars then
        match s.m_pcLine with
        | none => none
        | some blk => (tcscmp (blk.drop s.Length) lpEOL).map (fun r => r == 0)
      else
        some false
    match same with
    | none => none
    | some true => some (false, s)
    | some false =>
      let nBufNeeded := s.m_nLength + nNewEolChars + 1
      match grow align junk s nBufNeeded with
      | none => none
      | some (_, none) => none
      | some (m_nMax, some blk) =>
        match memcpy blk s.m_nLength lpEOL 0 (nNewEolChars + 1) with
        | none => none
        | some blk1 =>
          some (true, { s with m_pcLine := some blk1, m_nMax := m_nMax,
                               m_nEolChars := nNewEolChars })

/-- `LineInfo::Delete` (lines 214-237). -/
def Delete (s : LineInfo) (nStartChar nEndChar : Nat) : Option LineInfo :=
  let shifted : Option (Option (List Nat)) :=
    if nEndChar < s.Length ∨ s.m_nEolChars ≠ 0 then
      match s.m_pcLine with
      | none => none
      | some blk =>
        -- FullLength() - nEndChar is an unsigned difference
        if nEndChar ≤ s.FullLength then
          (memcpy blk nStartChar blk nEndChar (s.FullLength - nEndChar)).map some
        else
          none
    else
      some s.m_pcLine
  match shifted with
  | none => none
  | some line =>
    -- nEndChar - nStartChar is an unsigned difference
    if nEndChar < nStartChar then none
    else
      let nDelete := nEndChar - nStartChar
      let counts : Option (Nat × Nat) :=
        if nDelete ≤ s.m_nLength then
          some (s.m_nLength - nDelete, s.m_nEolChars)
        else
          -- m_nEolChars -= nDelete - m_nLength: a negative count makes FullLength() wrap
          if nDelete - s.m_nLength ≤ s.m_nEolChars then
            some (0, s.m_nEolChars - (nDelete - s.m_nLength))
          else
            none
      match counts with
      | none => none
      | some (m_nLength, m_nEolChars) =>
        match line with
        | none => some { s with m_nLength := m_nLength, m_nEolChars := m_nEolChars }
        | some blk =>
          match poke blk (m_nLength + m_nEolChars) 0 with
          | none => none
          | some blk1 =>
            some { s with m_pcLine := some blk1, m_nLength := m_nLength,
                          m_nEolChars := m_nEolChars }

/-- `LineInfo::DeleteEnd` (lines 243-250). -/
def DeleteEnd (s : LineInfo) (nStartChar : Nat) : Option LineInfo :=
  match s.m_pcLine with
  | none => some { s with m_nLength := nStartChar, m_nEolChars := 0 }
  | some blk =>
    match poke blk nStartChar 0 with
    | none => none
    | some blk1 => some { s with m_pcLine := some blk1, m_nLength := nStartChar, m_nEolChars := 0 }

/-- `LineInfo::CopyFrom` (lines 256-261): only the block is replaced, by a copy of the `li.m_nMax`
leading units of the block of `li`; no other member is assigned. The fresh block is overwritten
in full, so what it held before does not matter. -/
def CopyFrom (s : LineInfo) (li : LineInfo) : Option LineInfo :=
  match li.m_pcLine with
  | none => none
  | some src =>
    match memcpy (List.replicate li.m_nMax 0) 0 src 0 li.m_nMax with
    | none => none
    | some blk => some { s with m_pcLine := some blk }

/-- `LineInfo::RemoveEol` (lines 266-273). -/
def RemoveEol (s : LineInfo) : Option LineInfo :=
  if s.HasEol then
    match s.m_pcLine with
    | none => none
    | some blk =>
      match poke blk s.m_nLength 0 with
      | none => none
      | some blk1 => some { s with m_pcLine := some blk1, m_nEolChars := 0 }
  else
    some s

/-! ## Observations used by the statements -/

/-- The body: the units at offsets `[0, m_nLength)` of the block. -/
def body (s : LineInfo) : List Nat :=
  match s.m_pcLine with
  | none => []
  | some blk => blk.take s.m_nLength

/-- The end-of-line region: the units at offsets `[m_nLength, m_nLength + m_nEolChars)`. -/
def eol (s : LineInfo) : List Nat :=
  match s.m_pcLine with
  | none => []
  | some blk => (blk.drop s.m_nLength).take s.m_nEolChars

/-- The unit at offset `i` of the block, if the block has one. -/
def unitAt (s : LineInfo) (i : Nat) : Option Nat :=
  match s.m_pcLine with
  | none => none
  | some blk => blk[i]?

/-- The state is allocated, its block has the recorded size, the body and the end-of-line units
leave room for the closing zero, and the closing zero is in place. -/
def Inv (s : LineInfo) : Prop :=
  ∃ blk, s.m_pcLine = some blk ∧ blk.length = s.m_nMax ∧
    s.m_nLength + s.m_nEolChars < s.m_nMax ∧ blk[s.m_nLength + s.m_nEolChars]? = some 0

/-- The Terminator Classifier in the words of the design (section 4.2): 2 when the sequence has at
least two units and ends in carriage-return, line-feed; else 1 when its last unit is a line-feed
or a carriage-return; else 0. -/
def classify (text : List Nat) : Nat :=
  if 2 ≤ text.length ∧ text[text.length - 2]? = some 13 ∧ text[text.length - 1]? = some 10 then 2
  else if text[text.length - 1]? = some 10 ∨ text[text.length - 1]? = some 13 then 1
  else 0

/-- The state `Create` leaves for the text `text`, in closed form: the text followed by zeros up
to the rounded size, with the classified units counted as end-of-line units. -/
def created (align : Nat → Nat) (s : LineInfo) (text : List Nat) : LineInfo :=
  { s with m_pcLine := some (text ++ List.replicate (align (text.length + 1) - text.length) 0),
           m_nLength := text.length - classify text,
           m_nMax := align (text.length + 1),
           m_nEolChars := classify text }

/-- The combined region: the units at offsets `[0, m_nLength + m_nEolChars)`, body and
end-of-line units together. -/
def content (s : LineInfo) : List Nat :=
  match s.m_pcLine with
  | none => []
  | some blk => blk.take (s.m_nLength + s.m_nEolChars)

/-- The index of the unit that `Append` hands to `IsEol` at line 143, `m_nLength - 1` after
line 132 has added `nLength + m_nEolChars` to `m_nLength`, as a signed number. Where it is
negative the unsigned index has wrapped and the unit read lies before the block. -/
def lastReadIndex (s : LineInfo) (nLength : Nat) : Int :=
  ((s.m_nLength + (nLength + s.m_nEolChars) : Nat) : Int) - 1

/-! ## Sequences of mutating operations -/

/-- A call of one of the mutating operations, with its arguments. -/
inductive Op where
  | append (pszChars : List Nat) (nLength : Nat) (bDetectEol : Bool)
  | changeEol (lpEOL : List Nat)
  | removeEol
  | delete (nStartChar nEndChar : Nat)
  | deleteEnd (nStartChar : Nat)

/-- The state after the call `op` on `s`. -/
def Op.apply (align : Nat → Nat) (junk : Nat → Nat) (s : LineInfo) : Op → Option LineInfo
  | .append pszChars nLength bDetectEol => Append align junk s pszChars nLength bDetectEol
  | .changeEol lpEOL => (ChangeEol align junk s lpEOL).map Prod.snd
  | .removeEol => RemoveEol s
  | .delete nStartChar nEndChar => Delete s nStartChar nEndChar
  | .deleteEnd nStartChar => DeleteEnd s nStartChar

/-- The preconditions as the design states them: `Append` is given a fragment of `nLength` units
and `ChangeEol` a zero-terminated literal (both on an allocated buffer), `Delete` a range with
`0 ≤ start ≤ end ≤ contentLength + eolLength`, `DeleteEnd` an offset `start ≤ contentLength`. -/
def Op.stated (s : LineInfo) : Op → Bool
  | .append pszChars nLength _ => decide (nLength ≤ pszChars.length)
  | .changeEol lpEOL => decide (0 ∈ lpEOL)
  | .removeEol => true
  | .delete nStartChar nEndChar =>
    decide (nStartChar ≤ nEndChar ∧ nEndChar ≤ s.m_nLength + s.m_nEolChars)
  | .deleteEnd nStartChar => decide (nStartChar ≤ s.m_nLength)

/-- The stated preconditions, with two more for `Append`: without end-of-line detection the line
has no end-of-line units, and with detection the fragment or the line is not empty. -/
def Op.admitted (s : LineInfo) : Op → Bool
  | .append pszChars nLength bDetectEol =>
    decide (nLength ≤ pszChars.length) &&
      (if bDetectEol then decide (0 < nLength ∨ 0 < s.m_nLength + s.m_nEolChars)
       else decide (s.m_nEolChars = 0))
  | op => Op.stated s op

/-- The state after the calls `ops` in turn; a block allocated by call number `k` of the
sequence holds `junk k` before it is written. -/
def run (align : Nat → Nat) (junk : Nat → Nat → Nat) (s : LineInfo) : List Op → Option LineInfo
  | [] => some s
  | op :: ops =>
    match op.apply align (junk 0) s with
    | none => none
    | some t => run align (fun k => junk (k + 1)) t ops

/-- Every call of `ops` is made with `pre` true of the state it is made on (a call that has no
result ends the sequence). -/
def allowed (pre : LineInfo → Op → Bool) (align : Nat → Nat) (junk : Nat → Nat → Nat)
    (s : LineInfo) : List Op → Bool
  | [] => true
  | op :: ops =>
    pre s op &&
      match op.apply align (junk 0) s with
      | none => true
      | some t => allowed pre align (fun k => junk (k + 1)) t ops

/-! ## Sample states -/

/-- A source line for `CopyFrom`: `ab` and a line-feed in a block of 4 units. -/
def sampleSource : LineInfo :=
  { m_pcLine := some [97, 98, 10, 0], m_nLength := 2, m_nMax := 4, m_nEolChars := 1,
    m_dwFlags := 0, m_dwRevisionNumber := 0 }

/-- A destination line for `CopyFrom`: `x` in a block of 2 units, with flags and a revision. -/
def sampleDestination : LineInfo :=
  { m_pcLine := some [120, 0], m_nLength := 1, m_nMax := 2, m_nEolChars := 0,
    m_dwFlags := 5, m_dwRevisionNumber := 6 }

/-! ## Lemmas on the memory primitives and closed forms of the operations -/

theorem memcpy_some (dst : List Nat) (dOff : Nat) (src : List Nat) (sOff n : Nat)
    (hs : sOff + n ≤ src.length) (hd : dOff + n ≤ dst.length) :
    memcpy dst dOff src sOff n
      = some (dst.take dOff ++ ((src.drop sOff).take n ++ dst.drop (dOff + n))) := by
  simp [memcpy, hs, hd]

theorem memcpy_bounds {dst : List Nat} {dOff : Nat} {src : List Nat} {sOff n : Nat}
    {r : List Nat} (h : memcpy dst dOff src sOff n = some r) :
    sOff + n ≤ src.length ∧ dOff + n ≤ dst.length := by
  unfold memcpy at h
  split at h
  · assumption
  · cases h

theorem memcpy_length {dst : List Nat} {dOff : Nat} {src : List Nat} {sOff n : Nat}
    {r : List Nat} (h : memcpy dst dOff src sOff n = some r) : r.length = dst.length := by
  have hb := memcpy_bounds h
  rw [memcpy_some _ _ _ _ _ hb.1 hb.2] at h
  cases h
  simp
  omega

theorem memcpy_getElem? {dst : List Nat} {dOff : Nat} {src : List Nat} {sOff n : Nat}
    {r : List Nat} (h : memcpy dst dOff src sOff n = some r) (i : Nat) :
    r[i]? = if i < dOff then dst[i]? else if i < dOff + n then src[sOff + (i - dOff)]?
      else dst[i]? := by
  have hb := memcpy_bounds h
  rw [memcpy_some _ _ _ _ _ hb.1 hb.2] at h
  cases h
  simp only [List.getElem?_append, List.getElem?_take, List.getElem?_drop, List.length_take,
    List.length_drop]
  have h1 : min dOff dst.length = dOff := by omega
  have h2 : min n (src.length - sOff) = n := by omega
  rw [h1, h2]
  by_cases c1 : i < dOff
  · simp [c1]
  · by_cases c2 : i < dOff + n
    · have : i - dOff < n := by omega
      simp [c1, c2, this]
    · have : ¬ (i - dOff < n) := by omega
      simp only [c1, c2, this, if_false]
      congr 1
      omega

theorem poke_some (buf : List Nat) (i v : Nat) (h : i < buf.length) :
    poke buf i v = some (buf.set i v) := by
  simp [poke, h]

theorem poke_bounds {buf : List Nat} {i v : Nat} {r : List Nat} (h : poke buf i v = some r) :
    i < buf.length := by
  unfold poke at h
  split at h
  · assumption
  · cases h

theorem poke_length {buf : List Nat} {i v : Nat} {r : List Nat} (h : poke buf i v = some r) :
    r.length = buf.length := by
  have hb := poke_bounds h
  rw [poke_some _ _ _ hb] at h
  cases h
  simp

theorem poke_getElem? {buf : List Nat} {i v : Nat} {r : List Nat} (h : poke buf i v = some r)
    (j : Nat) : r[j]? = if j = i then some v else buf[j]? := by
  have hb := poke_bounds h
  rw [poke_some _ _ _ hb] at h
  cases h
  rw [List.getElem?_set]
  by_cases c : i = j
  · subst c; simp [hb]
  · have : ¬ (j = i) := fun e => c e.symm
    simp [c, this]

theorem classify_le (text : List Nat) : classify text ≤ text.length := by
  unfold classify
  split
  · omega
  · split
    · rcases text with _ | ⟨a, t⟩
      · simp_all
      · simp
    · omega

theorem classify_le_two (text : List Nat) : classify text ≤ 2 := by
  unfold classify
  split <;> [omega; (split <;> omega)]

theorem IsDosEol_eq (buf : List Nat) (i : Nat) (h : i + 1 < buf.length) :
    IsDosEol buf i = some (decide (buf[i]? = some 13 ∧ buf[i + 1]? = some 10)) := by
  have h0 : i < buf.length := by omega
  unfold IsDosEol peek
  rw [List.getElem?_eq_getElem h0, List.getElem?_eq_getElem h]
  by_cases c : buf[i] = 13
  · by_cases d : buf[i + 1] = 10 <;> simp [c, d]
  · simp [c]

theorem IsEol_eq (c : Nat) : IsEol c = decide (c = 10 ∨ c = 13) := by
  unfold IsEol
  by_cases h1 : c = 13 <;> by_cases h2 : c = 10 <;> simp [h1, h2]


theorem Create_eq_created (align : Nat → Nat) (halign : ∀ n, n ≤ align n) (s : LineInfo)
    (text : List Nat) : Create align s text text.length = some (created align s text) := by
  have hM := halign (text.length + 1)
  by_cases h0 : text.length = 0
  · have : text = [] := List.length_eq_zero.mp h0
    subst this
    simp [Create, CreateEmpty, created, classify]
  · have hblk : memcpy (List.replicate (align (text.length + 1)) 0) 0 text 0 text.length
        = some (text ++ List.replicate (align (text.length + 1) - text.length) 0) := by
      rw [memcpy_some _ _ _ _ _ (by omega) (by simp; omega)]
      simp
    have hpoke : poke (text ++ List.replicate (align (text.length + 1) - text.length) 0)
        text.length 0 = some (text ++ List.replicate (align (text.length + 1) - text.length) 0) := by
      rw [poke_some _ _ _ (by simp; omega)]
      congr 1
      apply List.ext_getElem?
      intro i
      rw [List.getElem?_set]
      by_cases c : text.length = i
      · subst c
        have : 0 < align (text.length + 1) - text.length := by omega
        have hlt : text.length < (text ++ List.replicate (align (text.length + 1) - text.length) 0).length := by
          simp; omega
        rw [if_pos hlt, List.getElem?_append_right (le_refl _)]
        simp [List.getElem?_replicate, this]
      · simp [c]
    have hlt : text.length - 1 < text.length := by omega
    have hlast : peek text (text.length - 1) = some text[text.length - 1] := by
      unfold peek
      exact List.getElem?_eq_getElem _
    unfold Create
    simp only [h0, if_false, hblk, hpoke, hlast]
    by_cases h1 : text.length > 1
    · rw [if_pos h1, IsDosEol_eq _ _ (by omega)]
      have e : text.length - 2 + 1 = text.length - 1 := by omega
      rw [e]
      by_cases hd : text[text.length - 2]? = some 13 ∧ text[text.length - 1]? = some 10
      · have hc : classify text = 2 := by
          unfold classify
          rw [if_pos ⟨by omega, hd⟩]
        simp [hd, created, hc]
      · have hc : classify text = if IsEol text[text.length - 1] then 1 else 0 := by
          unfold classify
          rw [if_neg (fun h => hd h.2), IsEol_eq]
          simp [List.getElem?_eq_getElem (show text.length - 1 < text.length by omega)]
        simp only [hd, decide_False, created, hc]
    · rw [if_neg h1]
      have hc : classify text = if IsEol text[text.length - 1] then 1 else 0 := by
        unfold classify
        rw [if_neg (fun h => h1 (by omega)), IsEol_eq]
        simp [List.getElem?_eq_getElem (show text.length - 1 < text.length by omega)]
      simp only [created, hc]

theorem DeleteEnd_spec (s : LineInfo) (blk : List Nat) (k : Nat)
    (hblk : s.m_pcLine = some blk) (hk : k < blk.length) :
    DeleteEnd s k = some { s with m_pcLine := some (blk.set k 0), m_nLength := k,
                                  m_nEolChars := 0 } := by
  unfold DeleteEnd
  simp only [hblk, poke_some _ _ _ hk]

theorem RemoveEol_spec (s : LineInfo) (blk : List Nat)
    (hblk : s.m_pcLine = some blk) (hk : s.m_nLength < blk.length) :
    RemoveEol s = some (if s.m_nEolChars = 0 then s
      else { s with m_pcLine := some (blk.set s.m_nLength 0), m_nEolChars := 0 }) := by
  unfold RemoveEol HasEol
  by_cases h : s.m_nEolChars = 0
  · simp [h]
  · rw [if_neg h]
    simp only [h, ne_eq, not_false_eq_true, if_true, hblk, poke_some _ _ _ hk]

theorem Delete_spec (s : LineInfo) (blk : List Nat) (nStartChar nEndChar : Nat)
    (hblk : s.m_pcLine = some blk) (hfull : s.m_nLength + s.m_nEolChars < blk.length)
    (hse : nStartChar ≤ nEndChar) (hef : nEndChar ≤ s.m_nLength + s.m_nEolChars) :
    ∃ blk2, Delete s nStartChar nEndChar
        = some { s with
            m_pcLine := some blk2,
            m_nLength := if nEndChar - nStartChar ≤ s.m_nLength
              then s.m_nLength - (nEndChar - nStartChar) else 0,
            m_nEolChars := if nEndChar - nStartChar ≤ s.m_nLength
              then s.m_nEolChars else s.m_nEolChars - (nEndChar - nStartChar - s.m_nLength) } ∧
      blk2.length = blk.length ∧
      blk2[s.m_nLength + s.m_nEolChars - (nEndChar - nStartChar)]? = some 0 ∧
      ∀ i, i < s.m_nLength + s.m_nEolChars - (nEndChar - nStartChar) →
        blk2[i]? = if i < nStartChar then blk[i]? else blk[i + (nEndChar - nStartChar)]? := by
  -- the block after the shift
  have hshift : ∃ blk1,
      (if nEndChar < s.Length ∨ s.m_nEolChars ≠ 0 then
          if nEndChar ≤ s.FullLength then
            (memcpy blk nStartChar blk nEndChar (s.FullLength - nEndChar)).map some
          else none
       else some (some blk)) = some (some blk1) ∧ blk1.length = blk.length ∧
      ∀ i, i < s.m_nLength + s.m_nEolChars - (nEndChar - nStartChar) →
        blk1[i]? = if i < nStartChar then blk[i]? else blk[i + (nEndChar - nStartChar)]? := by
    by_cases hc : nEndChar < s.Length ∨ s.m_nEolChars ≠ 0
    · have hm := memcpy_some blk nStartChar blk nEndChar (s.FullLength - nEndChar)
        (by unfold FullLength; omega) (by unfold FullLength; omega)
      refine ⟨_, ?_, memcpy_length hm, ?_⟩
      · rw [if_pos hc, if_pos (by unfold FullLength; omega), hm]
        rfl
      · intro i hi
        rw [memcpy_getElem? hm i]
        unfold FullLength
        by_cases c1 : i < nStartChar
        · simp [c1]
        · have c2 : i < nStartChar + (s.m_nLength + s.m_nEolChars - nEndChar) := by omega
          simp only [c1, c2, if_true, if_false]
          congr 1
          omega
    · refine ⟨blk, ?_, rfl, ?_⟩
      · rw [if_neg hc]
      · intro i hi
        unfold Length at hc
        have c1 : i < nStartChar := by omega
        simp [c1]
  obtain ⟨blk1, hsh, hlen1, hget1⟩ := hshift
  have hp := poke_some blk1 (s.m_nLength + s.m_nEolChars - (nEndChar - nStartChar)) 0 (by omega)
  refine ⟨blk1.set (s.m_nLength + s.m_nEolChars - (nEndChar - nStartChar)) 0, ?_,
    by simp [hlen1], ?_, ?_⟩
  · unfold Delete
    simp only [hblk, hsh]
    rw [if_neg (by omega)]
    by_cases hd : nEndChar - nStartChar ≤ s.m_nLength
    · simp only [hd, if_true]
      have e : s.m_nLength - (nEndChar - nStartChar) + s.m_nEolChars
          = s.m_nLength + s.m_nEolChars - (nEndChar - nStartChar) := by omega
      rw [e, hp]
    · have hd2 : nEndChar - nStartChar - s.m_nLength ≤ s.m_nEolChars := by omega
      simp only [hd, hd2, if_true, if_false]
      have e : 0 + (s.m_nEolChars - (nEndChar - nStartChar - s.m_nLength))
          = s.m_nLength + s.m_nEolChars - (nEndChar - nStartChar) := by omega
      rw [e, hp]
  · rw [List.getElem?_set_self (by omega)]
  · intro i hi
    rw [List.getElem?_set_ne (by omega)]
    exact hget1 i hi

theorem newBlock_length (junk : Nat → Nat) (n : Nat) : (newBlock junk n).length = n := by
  simp [newBlock]

theorem grow_spec (align : Nat → Nat) (halign : ∀ n, n ≤ align n) (junk : Nat → Nat)
    (s : LineInfo) (blk : List Nat) (need : Nat)
    (hblk : s.m_pcLine = some blk) (hmax : blk.length = s.m_nMax)
    (hfull : s.m_nLength + s.m_nEolChars < s.m_nMax) :
    ∃ M blk1, grow align junk s need = some (M, some blk1) ∧ blk1.length = M ∧ need ≤ M ∧
      s.m_nMax ≤ M ∧ (M = s.m_nMax ∨ (s.m_nMax < need ∧ M = align need)) ∧
      ∀ i, i < s.m_nLength + s.m_nEolChars → blk1[i]? = blk[i]? := by
  have hA := halign need
  by_cases hc : need > s.m_nMax
  · by_cases hz : s.FullLength > 0
    · obtain ⟨blk1, hm⟩ : ∃ b, memcpy (newBlock junk (align need)) 0 blk 0 (s.FullLength + 1)
          = some b :=
        ⟨_, memcpy_some (newBlock junk (align need)) 0 blk 0 (s.FullLength + 1)
          (by unfold FullLength; omega) (by rw [newBlock_length]; unfold FullLength; omega)⟩
      refine ⟨align need, blk1, ?_, ?_, hA, by omega, Or.inr ⟨hc, rfl⟩, ?_⟩
      · unfold grow
        simp only [hc, hz, if_true, hblk, hm]
      · rw [memcpy_length hm, newBlock_length]
      · intro i hi
        rw [memcpy_getElem? hm i]
        unfold FullLength
        have c2 : i < 0 + (s.m_nLength + s.m_nEolChars + 1) := by omega
        rw [if_neg (Nat.not_lt_zero i), if_pos c2]
        congr 1
        omega
    · refine ⟨align need, newBlock junk (align need), ?_, newBlock_length _ _, hA, by omega,
        Or.inr ⟨hc, rfl⟩, ?_⟩
      · unfold grow
        simp only [hc, hz, if_true, if_false]
      · intro i hi
        unfold FullLength at hz
        omega
  · refine ⟨s.m_nMax, blk, ?_, hmax, by omega, le_refl _, Or.inl rfl, fun _ _ => rfl⟩
    unfold grow
    simp only [hc, if_false, hblk]

theorem tcslen_terminated (T rest : List Nat) (hT : ∀ x ∈ T, x ≠ 0) :
    tcslen (T ++ 0 :: rest) = some T.length := by
  induction T with
  | nil => simp [tcslen]
  | cons t T ih =>
    have ht : t ≠ 0 := hT t (by simp)
    have := ih (fun x hx => hT x (by simp [hx]))
    simp [tcslen, ht, this]

theorem tcscmp_terminated (T rest : List Nat) (hT : ∀ x ∈ T, x ≠ 0) :
    ∀ p : List Nat, p[T.length]? = some 0 →
      ∃ r, tcscmp p (T ++ 0 :: rest) = some r ∧ (r = 0 ↔ p.take T.length = T) := by
  induction T with
  | nil =>
    intro p hp
    rcases p with _ | ⟨a, p⟩
    · simp at hp
    · have ha : a = 0 := by simpa using hp
      subst ha
      exact ⟨0, by simp [tcscmp], by simp⟩
  | cons t T ih =>
    intro p hp
    have ht : t ≠ 0 := hT t (by simp)
    rcases p with _ | ⟨a, p⟩
    · simp at hp
    · have hp2 : p[T.length]? = some 0 := by simpa using hp
      obtain ⟨r, hr, hiff⟩ := ih (fun x hx => hT x (by simp [hx])) p hp2
      by_cases h1 : a < t
      · refine ⟨-1, by simp [tcscmp, h1], ?_⟩
        have : a ≠ t := by omega
        simp [this]
      · by_cases h2 : t < a
        · refine ⟨1, by simp [tcscmp, h1, h2], ?_⟩
          have : a ≠ t := by omega
          simp [this]
        · have hat : a = t := by omega
          subst hat
          refine ⟨r, by simp [tcscmp, ht, hr], ?_⟩
          simp [hiff]

theorem ChangeEol_same (align : Nat → Nat) (junk : Nat → Nat) (s : LineInfo) (blk T rest : List Nat)
    (hblk : s.m_pcLine = some blk)
    (hsent : blk[s.m_nLength + s.m_nEolChars]? = some 0)
    (hT : ∀ x ∈ T, x ≠ 0) (hlen : T.length = s.m_nEolChars)
    (heq : (blk.drop s.m_nLength).take s.m_nEolChars = T) :
    ChangeEol align junk s (T ++ 0 :: rest) = some (false, s) := by
  obtain ⟨r, hr, hiff⟩ := tcscmp_terminated T rest hT (blk.drop s.m_nLength)
    (by rw [List.getElem?_drop, hlen]; exact hsent)
  have hr0 : r = 0 := hiff.mpr (by rw [hlen]; exact heq)
  subst hr0
  unfold ChangeEol
  simp only [tcslen_terminated T rest hT, hlen, if_true, hblk, Length, hr]
  rfl

theorem ChangeEol_changed (align : Nat → Nat) (halign : ∀ n, n ≤ align n) (junk : Nat → Nat)
    (s : LineInfo) (blk T rest : List Nat)
    (hblk : s.m_pcLine = some blk) (hmax : blk.length = s.m_nMax)
    (hfull : s.m_nLength + s.m_nEolChars < s.m_nMax)
    (hsent : blk[s.m_nLength + s.m_nEolChars]? = some 0)
    (hT : ∀ x ∈ T, x ≠ 0)
    (hne : ¬ (T.length = s.m_nEolChars ∧ (blk.drop s.m_nLength).take s.m_nEolChars = T)) :
    ∃ M blk1, ChangeEol align junk s (T ++ 0 :: rest)
        = some (true, { s with m_pcLine := some blk1, m_nMax := M, m_nEolChars := T.length }) ∧
      blk1.length = M ∧ s.m_nLength + T.length < M ∧ s.m_nMax ≤ M ∧
      (M = s.m_nMax ∨ (s.m_nMax < s.m_nLength + T.length + 1 ∧
        M = align (s.m_nLength + T.length + 1))) ∧
      (∀ i, i < s.m_nLength → blk1[i]? = blk[i]?) ∧
      (∀ j, j < T.length → blk1[s.m_nLength + j]? = T[j]?) ∧
      blk1[s.m_nLength + T.length]? = some 0 := by
  obtain ⟨M, blk0, hg, hlen0, hneed, hM, hMeq, hpre⟩ :=
    grow_spec align halign junk s blk (s.m_nLength + T.length + 1) hblk hmax hfull
  obtain ⟨blk1, hm⟩ : ∃ b, memcpy blk0 s.m_nLength (T ++ 0 :: rest) 0 (T.length + 1) = some b :=
    ⟨_, memcpy_some _ _ _ _ _ (by simp) (by omega)⟩
  have hsame : (if T.length = s.m_nEolChars then
        (tcscmp (blk.drop s.Length) (T ++ 0 :: rest)).map (fun r => r == 0)
      else some false) = some false := by
    by_cases hl : T.length = s.m_nEolChars
    · obtain ⟨r, hr, hiff⟩ := tcscmp_terminated T rest hT (blk.drop s.m_nLength)
        (by rw [List.getElem?_drop, hl]; exact hsent)
      have hr0 : r ≠ 0 := fun h => hne ⟨hl, by rw [← hl]; exact hiff.mp h⟩
      rw [if_pos hl]
      unfold Length
      rw [hr]
      simp [hr0]
    · rw [if_neg hl]
  refine ⟨M, blk1, ?_, ?_, by omega, hM, hMeq, ?_, ?_, ?_⟩
  · unfold ChangeEol
    simp only [tcslen_terminated T rest hT, hblk, hsame, hg, hm]
  · rw [memcpy_length hm, hlen0]
  · intro i hi
    rw [memcpy_getElem? hm i, if_pos hi]
    exact hpre i (by omega)
  · intro j hj
    rw [memcpy_getElem? hm]
    have c1 : ¬ (s.m_nLength + j < s.m_nLength) := by omega
    have c2 : s.m_nLength + j < s.m_nLength + (T.length + 1) := by omega
    rw [if_neg c1, if_pos c2]
    have e : 0 + (s.m_nLength + j - s.m_nLength) = j := by omega
    rw [e, List.getElem?_append_left hj]
  · rw [memcpy_getElem? hm]
    have c1 : ¬ (s.m_nLength + T.length < s.m_nLength) := by omega
    have c2 : s.m_nLength + T.length < s.m_nLength + (T.length + 1) := by omega
    rw [if_neg c1, if_pos c2]
    have e : 0 + (s.m_nLength + T.length - s.m_nLength) = T.length := by omega
    rw [e, List.getElem?_append_right (le_refl _)]
    simp

theorem Append_spec (align : Nat → Nat) (halign : ∀ n, n ≤ align n) (junk : Nat → Nat)
    (s : LineInfo) (blk frag : List Nat) (n : Nat)
    (hblk : s.m_pcLine = some blk) (hmax : blk.length = s.m_nMax)
    (hfull : s.m_nLength + s.m_nEolChars < s.m_nMax) (hn : n ≤ frag.length) :
    ∃ M blk2,
      Append align junk s frag n false
        = some { s with m_pcLine := some blk2, m_nLength := s.m_nLength + (n + s.m_nEolChars),
                        m_nMax := M } ∧
      (0 < n ∨ 0 < s.m_nLength + s.m_nEolChars →
        Append align junk s frag n true
          = some { s with
              m_pcLine := some blk2,
              m_nLength := s.m_nLength + (n + s.m_nEolChars) -
                (if 1 < n ∧ blk2[s.m_nLength + (n + s.m_nEolChars) - 2]? = some 13 ∧
                    blk2[s.m_nLength + (n + s.m_nEolChars) - 1]? = some 10 then 2
                 else if blk2[s.m_nLength + (n + s.m_nEolChars) - 1]? = some 10 ∨
                    blk2[s.m_nLength + (n + s.m_nEolChars) - 1]? = some 13 then 1
                 else s.m_nEolChars),
              m_nMax := M,
              m_nEolChars :=
                (if 1 < n ∧ blk2[s.m_nLength + (n + s.m_nEolChars) - 2]? = some 13 ∧
                    blk2[s.m_nLength + (n + s.m_nEolChars) - 1]? = some 10 then 2
                 else if blk2[s.m_nLength + (n + s.m_nEolChars) - 1]? = some 10 ∨
                    blk2[s.m_nLength + (n + s.m_nEolChars) - 1]? = some 13 then 1
                 else s.m_nEolChars) }) ∧
      blk2.length = M ∧ s.m_nLength + s.m_nEolChars + n < M ∧ s.m_nMax ≤ M ∧
      (M = s.m_nMax ∨ (s.m_nMax < s.m_nLength + s.m_nEolChars + n + 1 ∧
        M = align (s.m_nLength + s.m_nEolChars + n + 1))) ∧
      (∀ i, i < s.m_nLength + s.m_nEolChars → blk2[i]? = blk[i]?) ∧
      (∀ j, j < n → blk2[s.m_nLength + s.m_nEolChars + j]? = frag[j]?) ∧
      blk2[s.m_nLength + s.m_nEolChars + n]? = some 0 := by
  obtain ⟨M, blk0, hg, hlen0, hneed, hM, hMeq, hpre⟩ :=
    grow_spec align halign junk s blk (s.m_nLength + s.m_nEolChars + n + 1) hblk hmax hfull
  obtain ⟨blk1, hm⟩ : ∃ b, memcpy blk0 (s.m_nLength + s.m_nEolChars) frag 0 n = some b :=
    ⟨_, memcpy_some _ _ _ _ _ (by omega) (by omega)⟩
  have hlen1 := memcpy_length hm
  obtain ⟨blk2, hp⟩ : ∃ b, poke blk1 (s.m_nLength + (n + s.m_nEolChars)) 0 = some b :=
    ⟨_, poke_some _ _ _ (by omega)⟩
  have hlen2 := poke_length hp
  refine ⟨M, blk2, ?_, ?_, by omega, by omega, hM, hMeq, ?_, ?_, ?_⟩
  · unfold Append
    simp only [hg, hm, hp]
    rfl
  · intro hL
    have hL0 : ¬ (s.m_nLength + (n + s.m_nEolChars) = 0) := by omega
    have hlast : s.m_nLength + (n + s.m_nEolChars) - 1 < blk2.length := by omega
    have hpk : peek blk2 (s.m_nLength + (n + s.m_nEolChars) - 1)
        = some blk2[s.m_nLength + (n + s.m_nEolChars) - 1] := by
      unfold peek
      exact List.getElem?_eq_getElem _
    unfold Append
    simp only [hg, hm, hp, Bool.not_true, Bool.false_eq_true, if_false, hL0, hpk]
    by_cases h1 : n > 1
    · rw [if_pos h1, IsDosEol_eq _ _ (by omega)]
      have e : s.m_nLength + (n + s.m_nEolChars) - 2 + 1
          = s.m_nLength + (n + s.m_nEolChars) - 1 := by omega
      rw [e]
      by_cases hd : blk2[s.m_nLength + (n + s.m_nEolChars) - 2]? = some 13 ∧
          blk2[s.m_nLength + (n + s.m_nEolChars) - 1]? = some 10
      · have hd2 : 1 < n ∧ blk2[s.m_nLength + (n + s.m_nEolChars) - 2]? = some 13 ∧
            blk2[s.m_nLength + (n + s.m_nEolChars) - 1]? = some 10 := ⟨h1, hd⟩
        rw [if_pos hd2, decide_eq_true hd]
      · have hd2 : ¬ (1 < n ∧ blk2[s.m_nLength + (n + s.m_nEolChars) - 2]? = some 13 ∧
            blk2[s.m_nLength + (n + s.m_nEolChars) - 1]? = some 10) := fun h => hd h.2
        rw [if_neg hd2, decide_eq_false hd]
        simp only [IsEol_eq, List.getElem?_eq_getElem hlast, Option.some.injEq,
          decide_eq_true_eq]
        by_cases hc : blk2[s.m_nLength + (n + s.m_nEolChars) - 1] = 10 ∨
            blk2[s.m_nLength + (n + s.m_nEolChars) - 1] = 13
        · have : 1 ≤ s.m_nLength + (n + s.m_nEolChars) := by omega
          simp only [hc, if_true, this]
        · have : s.m_nEolChars ≤ s.m_nLength + (n + s.m_nEolChars) := by omega
          simp only [hc, if_false, this, if_true]
    · have hd2 : ¬ (1 < n ∧ blk2[s.m_nLength + (n + s.m_nEolChars) - 2]? = some 13 ∧
          blk2[s.m_nLength + (n + s.m_nEolChars) - 1]? = some 10) := fun h => h1 h.1
      rw [if_neg h1, if_neg hd2]
      simp only [IsEol_eq, List.getElem?_eq_getElem hlast, Option.some.injEq,
        decide_eq_true_eq]
      by_cases hc : blk2[s.m_nLength + (n + s.m_nEolChars) - 1] = 10 ∨
          blk2[s.m_nLength + (n + s.m_nEolChars) - 1] = 13
      · have : 1 ≤ s.m_nLength + (n + s.m_nEolChars) := by omega
        simp only [hc, if_true, this]
      · have : s.m_nEolChars ≤ s.m_nLength + (n + s.m_nEolChars) := by omega
        simp only [hc, if_false, this, if_true]
  · intro i hi
    rw [poke_getElem? hp, if_neg (by omega), memcpy_getElem? hm, if_pos hi]
    exact hpre i hi
  · intro j hj
    rw [poke_getElem? hp, if_neg (by omega), memcpy_getElem? hm, if_neg (by omega),
      if_pos (by omega)]
    congr 1
    omega
  · rw [poke_getElem? hp, if_pos (by omega)]

theorem take_congr_getElem? {a b : List Nat} {k : Nat} (h : ∀ i, i < k → a[i]? = b[i]?) :
    a.take k = b.take k := by
  apply List.ext_getElem?
  intro i
  rw [List.getElem?_take, List.getElem?_take]
  by_cases c : i < k
  · rw [if_pos c, if_pos c, h i c]
  · rw [if_neg c, if_neg c]

theorem drop_take_congr_getElem? {a b : List Nat} {m k : Nat}
    (h : ∀ j, j < k → a[m + j]? = b[m + j]?) : (a.drop m).take k = (b.drop m).take k := by
  apply take_congr_getElem?
  intro j hj
  rw [List.getElem?_drop, List.getElem?_drop, h j hj]

theorem drop_take_eq_of_getElem? {a T : List Nat} {m : Nat}
    (h : ∀ j, j < T.length → a[m + j]? = T[j]?) : (a.drop m).take T.length = T := by
  apply List.ext_getElem?
  intro j
  rw [List.getElem?_take, List.getElem?_drop]
  by_cases c : j < T.length
  · rw [if_pos c, h j c]
  · rw [if_neg c, List.getElem?_eq_none (by omega)]

theorem ALIGN_BUF_SIZE_ge (CHAR_ALIGN : Nat) (h : 0 < CHAR_ALIGN) (n : Nat) :
    n ≤ ALIGN_BUF_SIZE CHAR_ALIGN n := by
  unfold ALIGN_BUF_SIZE
  have h1 := Nat.div_add_mod n CHAR_ALIGN
  have h2 := Nat.mod_lt n h
  have h3 : CHAR_ALIGN * (n / CHAR_ALIGN) = n / CHAR_ALIGN * CHAR_ALIGN := Nat.mul_comm _ _
  omega

theorem CreateEmpty_eq_created (align : Nat → Nat) (s : LineInfo) :
    CreateEmpty align s = created align s [] := by
  simp [CreateEmpty, created, classify]

theorem Inv_created (align : Nat → Nat) (halign : ∀ n, n ≤ align n) (s : LineInfo)
    (text : List Nat) : Inv (created align s text) := by
  have hM := halign (text.length + 1)
  have hc := classify_le text
  refine ⟨_, rfl, ?_, ?_, ?_⟩
  · simp [created]; omega
  · simp only [created]; omega
  · simp only [created]
    have e : text.length - classify text + classify text = text.length := by omega
    rw [e, List.getElem?_append_right (le_refl _)]
    simp [List.getElem?_replicate]
    omega

theorem body_created (align : Nat → Nat) (s : LineInfo) (text : List Nat) :
    (created align s text).body = text.take (text.length - classify text) := by
  simp only [body, created]
  exact List.take_append_of_le_length (by omega)

theorem eol_created (align : Nat → Nat) (s : LineInfo) (text : List Nat) :
    (created align s text).eol = text.drop (text.length - classify text) := by
  have hc := classify_le text
  simp only [eol, created]
  rw [List.drop_append_of_le_length (by omega), List.take_append_of_le_length (by simp; omega)]
  apply List.take_of_length_le
  simp
  omega

theorem DeleteEnd_post (s : LineInfo) (hinv : Inv s) (k : Nat) (hk : k ≤ s.m_nLength) :
    ∃ t, DeleteEnd s k = some t ∧ Inv t ∧ t.m_nLength = k ∧ t.m_nEolChars = 0 ∧
      t.body = s.body.take k ∧ t.unitAt k = some 0 ∧ t.m_nMax = s.m_nMax ∧
      t.m_dwFlags = s.m_dwFlags ∧ t.m_dwRevisionNumber = s.m_dwRevisionNumber := by
  obtain ⟨blk, hblk, hmax, hfull, hsent⟩ := hinv
  have hkl : k < blk.length := by omega
  refine ⟨_, DeleteEnd_spec s blk k hblk hkl, ⟨_, rfl, by simpa using hmax, by simp; omega, ?_⟩,
    rfl, rfl, ?_, ?_, rfl, rfl, rfl⟩
  · simp only [Nat.add_zero]
    exact List.getElem?_set_self hkl
  · simp only [body, hblk, List.take_take]
    rw [Nat.min_eq_left hk]
    apply take_congr_getElem?
    intro i hi
    exact List.getElem?_set_ne (by omega)
  · simp only [unitAt]
    exact List.getElem?_set_self hkl

theorem RemoveEol_post (s : LineInfo) (hinv : Inv s) :
    ∃ t, RemoveEol s = some t ∧ Inv t ∧ t.m_nLength = s.m_nLength ∧ t.m_nEolChars = 0 ∧
      t.body = s.body ∧ t.unitAt t.m_nLength = some 0 ∧ t.m_nMax = s.m_nMax ∧
      t.m_dwFlags = s.m_dwFlags ∧ t.m_dwRevisionNumber = s.m_dwRevisionNumber := by
  obtain ⟨blk, hblk, hmax, hfull, hsent⟩ := hinv
  have hkl : s.m_nLength < blk.length := by omega
  rw [RemoveEol_spec s blk hblk hkl]
  by_cases h : s.m_nEolChars = 0
  · rw [if_pos h]
    rw [h] at hsent hfull
    exact ⟨s, rfl, ⟨blk, hblk, hmax, by omega, by rw [h]; exact hsent⟩, rfl, h, rfl,
      by simp only [unitAt, hblk]; exact hsent, rfl, rfl, rfl⟩
  · rw [if_neg h]
    refine ⟨_, rfl, ⟨_, rfl, by simpa using hmax, by simp; omega, ?_⟩, rfl, rfl, ?_, ?_,
      rfl, rfl, rfl⟩
    · simp only [Nat.add_zero]
      exact List.getElem?_set_self hkl
    · simp only [body, hblk]
      apply take_congr_getElem?
      intro i hi
      exact List.getElem?_set_ne (by omega)
    · simp only [unitAt]
      exact List.getElem?_set_self hkl

theorem excise_getElem? (l : List Nat) (a b : Nat) (hab : a ≤ b) (hb : b ≤ l.length) (i : Nat) :
    (l.take a ++ l.drop b)[i]? = if i < a then l[i]? else l[i + (b - a)]? := by
  rw [List.getElem?_append, List.length_take, Nat.min_eq_left (by omega)]
  by_cases c : i < a
  · rw [if_pos c, if_pos c, List.getElem?_take, if_pos c]
  · rw [if_neg c, if_neg c, List.getElem?_drop]
    congr 1
    omega

theorem Delete_post (s : LineInfo) (hinv : Inv s) (nStartChar nEndChar : Nat)
    (hse : nStartChar ≤ nEndChar) (hef : nEndChar ≤ s.m_nLength + s.m_nEolChars) :
    ∃ t blk blk2, s.m_pcLine = some blk ∧ Delete s nStartChar nEndChar = some t ∧
      t.m_pcLine = some blk2 ∧ Inv t ∧
      t.m_nLength = (if nEndChar - nStartChar ≤ s.m_nLength
        then s.m_nLength - (nEndChar - nStartChar) else 0) ∧
      t.m_nEolChars = (if nEndChar - nStartChar ≤ s.m_nLength
        then s.m_nEolChars else s.m_nEolChars - (nEndChar - nStartChar - s.m_nLength)) ∧
      t.m_nLength + t.m_nEolChars = s.m_nLength + s.m_nEolChars - (nEndChar - nStartChar) ∧
      (∀ i, i < s.m_nLength + s.m_nEolChars - (nEndChar - nStartChar) →
        blk2[i]? = if i < nStartChar then blk[i]? else blk[i + (nEndChar - nStartChar)]?) ∧
      t.m_nMax = s.m_nMax ∧ t.m_dwFlags = s.m_dwFlags ∧
      t.m_dwRevisionNumber = s.m_dwRevisionNumber := by
  obtain ⟨blk, hblk, hmax, hfull, hsent⟩ := hinv
  obtain ⟨blk2, hD, hlen2, hsent2, hget⟩ :=
    Delete_spec s blk nStartChar nEndChar hblk (by omega) hse hef
  have hsum : (if nEndChar - nStartChar ≤ s.m_nLength
        then s.m_nLength - (nEndChar - nStartChar) else 0) +
      (if nEndChar - nStartChar ≤ s.m_nLength
        then s.m_nEolChars else s.m_nEolChars - (nEndChar - nStartChar - s.m_nLength))
      = s.m_nLength + s.m_nEolChars - (nEndChar - nStartChar) := by
    by_cases hd : nEndChar - nStartChar ≤ s.m_nLength
    · rw [if_pos hd, if_pos hd]; omega
    · rw [if_neg hd, if_neg hd]; omega
  refine ⟨_, blk, blk2, hblk, hD, rfl, ⟨blk2, rfl, by rw [hlen2]; exact hmax, ?_, ?_⟩, rfl, rfl,
    hsum, hget, rfl, rfl, rfl⟩
  · show _ + _ < s.m_nMax
    rw [hsum]; omega
  · show blk2[_ + _]? = some 0
    rw [hsum]; exact hsent2

theorem ChangeEol_post (align : Nat → Nat) (halign : ∀ n, n ≤ align n) (junk : Nat → Nat)
    (s : LineInfo) (hinv : Inv s) (T rest : List Nat) (hT : ∀ x ∈ T, x ≠ 0) :
    ∃ b t, ChangeEol align junk s (T ++ 0 :: rest) = some (b, t) ∧ Inv t ∧
      (b = false ↔ (T.length = s.m_nEolChars ∧ s.eol = T)) ∧ (b = false → t = s) ∧
      t.m_nLength = s.m_nLength ∧ t.body = s.body ∧ t.m_nEolChars = T.length ∧ t.eol = T ∧
      s.m_nMax ≤ t.m_nMax ∧
      (t.m_nMax = s.m_nMax ∨ (s.m_nMax < s.m_nLength + T.length + 1 ∧
        t.m_nMax = align (s.m_nLength + T.length + 1))) ∧
      t.m_dwFlags = s.m_dwFlags ∧ t.m_dwRevisionNumber = s.m_dwRevisionNumber := by
  have hinv0 := hinv
  obtain ⟨blk, hblk, hmax, hfull, hsent⟩ := hinv
  have heol : s.eol = (blk.drop s.m_nLength).take s.m_nEolChars := by simp only [eol, hblk]
  by_cases hsame : T.length = s.m_nEolChars ∧ (blk.drop s.m_nLength).take s.m_nEolChars = T
  · refine ⟨false, s, ChangeEol_same align junk s blk T rest hblk hsent hT hsame.1 hsame.2, hinv0,
      ?_, fun _ => rfl, rfl, rfl, hsame.1.symm, ?_, le_refl _, Or.inl rfl, rfl, rfl⟩
    · rw [heol]; simp [hsame]
    · rw [heol]; exact hsame.2
  · obtain ⟨M, blk1, hC, hlen1, hroom, hM, hMeq, hpre, hT1, hz⟩ :=
      ChangeEol_changed align halign junk s blk T rest hblk hmax hfull hsent hT hsame
    refine ⟨true, _, hC, ⟨blk1, rfl, hlen1, hroom, hz⟩, ?_, fun h => Bool.noConfusion h, rfl, ?_, rfl,
      ?_, hM, hMeq, rfl, rfl⟩
    · rw [heol]; simp [hsame]
    · simp only [body, hblk]
      exact take_congr_getElem? hpre
    · simp only [eol]
      exact drop_take_eq_of_getElem? hT1

theorem Append_post (align : Nat → Nat) (halign : ∀ n, n ≤ align n) (junk : Nat → Nat)
    (s : LineInfo) (hinv : Inv s) (frag : List Nat) (n : Nat) (hn : n ≤ frag.length)
    (bDetectEol : Bool)
    (hplain : bDetectEol = false → s.m_nEolChars = 0)
    (hread : bDetectEol = true → 0 < n ∨ 0 < s.m_nLength + s.m_nEolChars) :
    ∃ t, Append align junk s frag n bDetectEol = some t ∧ Inv t ∧
      t.m_nLength + t.m_nEolChars = s.m_nLength + s.m_nEolChars + n ∧
      s.m_nMax ≤ t.m_nMax ∧
      t.m_dwFlags = s.m_dwFlags ∧ t.m_dwRevisionNumber = s.m_dwRevisionNumber := by
  obtain ⟨blk, hblk, hmax, hfull, hsent⟩ := hinv
  obtain ⟨M, blk2, hA0, hA1, hlen2, hroom, hM, _, _, _, hz⟩ :=
    Append_spec align halign junk s blk frag n hblk hmax hfull hn
  cases bDetectEol with
  | false =>
    have h0 := hplain rfl
    refine ⟨_, hA0, ⟨blk2, rfl, hlen2, ?_, ?_⟩, ?_, hM, rfl, rfl⟩
    · show s.m_nLength + (n + s.m_nEolChars) + s.m_nEolChars < M
      omega
    · show blk2[s.m_nLength + (n + s.m_nEolChars) + s.m_nEolChars]? = some 0
      rw [h0] at hz ⊢
      exact hz
    · show s.m_nLength + (n + s.m_nEolChars) + s.m_nEolChars = _
      omega
  | true =>
    have hL := hread rfl
    have he : (if 1 < n ∧ blk2[s.m_nLength + (n + s.m_nEolChars) - 2]? = some 13 ∧
                    blk2[s.m_nLength + (n + s.m_nEolChars) - 1]? = some 10 then 2
                 else if blk2[s.m_nLength + (n + s.m_nEolChars) - 1]? = some 10 ∨
                    blk2[s.m_nLength + (n + s.m_nEolChars) - 1]? = some 13 then 1
                 else s.m_nEolChars) ≤ s.m_nLength + (n + s.m_nEolChars) := by
      split
      · omega
      · split <;> omega
    have hsum : ∀ e, e ≤ s.m_nLength + (n + s.m_nEolChars) →
        s.m_nLength + (n + s.m_nEolChars) - e + e = s.m_nLength + s.m_nEolChars + n := by
      intro e he; omega
    refine ⟨_, hA1 hL, ⟨blk2, rfl, hlen2, ?_, ?_⟩, ?_, hM, rfl, rfl⟩
    · show _ - _ + _ < M
      rw [hsum _ he]; exact hroom
    · show blk2[_ - _ + _]? = some 0
      rw [hsum _ he]; exact hz
    · show _ - _ + _ = _
      exact hsum _ he

theorem exists_terminated (l : List Nat) (h : 0 ∈ l) :
    ∃ T rest, l = T ++ 0 :: rest ∧ ∀ x ∈ T, x ≠ 0 := by
  induction l with
  | nil => simp at h
  | cons a l ih =>
    by_cases ha : a = 0
    · exact ⟨[], l, by simp [ha], by simp⟩
    · have hl : 0 ∈ l := by
        rcases List.mem_cons.mp h with h0 | h0
        · exact absurd h0.symm ha
        · exact h0
      obtain ⟨T, rest, hl2, hT⟩ := ih hl
      refine ⟨a :: T, rest, by simp [hl2], ?_⟩
      intro x hx
      rcases List.mem_cons.mp hx with h0 | h0
      · rw [h0]; exact ha
      · exact hT x h0

theorem Op_apply_Inv (align : Nat → Nat) (halign : ∀ n, n ≤ align n) (junk : Nat → Nat)
    (s : LineInfo) (hinv : Inv s) (op : Op) (hop : Op.admitted s op = true) :
    ∃ t, op.apply align junk s = some t ∧ Inv t := by
  cases op with
  | append pszChars nLength bDetectEol =>
    simp only [Op.admitted, Bool.and_eq_true, decide_eq_true_eq] at hop
    obtain ⟨hn, hrest⟩ := hop
    obtain ⟨t, ht, hi, _⟩ := Append_post align halign junk s hinv pszChars nLength hn bDetectEol
      (fun hb => by simpa [hb] using hrest) (fun hb => by simpa [hb] using hrest)
    exact ⟨t, ht, hi⟩
  | changeEol lpEOL =>
    simp only [Op.admitted, Op.stated, decide_eq_true_eq] at hop
    obtain ⟨T, rest, hl, hT⟩ := exists_terminated lpEOL hop
    obtain ⟨b, t, ht, hi, _⟩ := ChangeEol_post align halign junk s hinv T rest hT
    exact ⟨t, by simp [Op.apply, hl, ht], hi⟩
  | removeEol =>
    obtain ⟨t, ht, hi, _⟩ := RemoveEol_post s hinv
    exact ⟨t, ht, hi⟩
  | delete nStartChar nEndChar =>
    simp only [Op.admitted, Op.stated, decide_eq_true_eq] at hop
    obtain ⟨t, _, _, _, ht, _, hi, _⟩ := Delete_post s hinv nStartChar nEndChar hop.1 hop.2
    exact ⟨t, ht, hi⟩
  | deleteEnd nStartChar =>
    simp only [Op.admitted, Op.stated, decide_eq_true_eq] at hop
    obtain ⟨t, ht, hi, _⟩ := DeleteEnd_post s hinv nStartChar hop
    exact ⟨t, ht, hi⟩

theorem run_Inv (align : Nat → Nat) (halign : ∀ n, n ≤ align n) (ops : List Op) :
    ∀ (junk : Nat → Nat → Nat) (s : LineInfo), Inv s →
      allowed Op.admitted align junk s ops = true → ∃ t, run align junk s ops = some t ∧ Inv t := by
  induction ops with
  | nil =>
    intro junk s hinv _
    exact ⟨s, rfl, hinv⟩
  | cons op ops ih =>
    intro junk s hinv hal
    simp only [allowed, Bool.and_eq_true] at hal
    obtain ⟨hop, hrest⟩ := hal
    obtain ⟨t, ht, hi⟩ := Op_apply_Inv align halign (junk 0) s hinv op hop
    simp only [ht] at hrest
    obtain ⟨u, hu, hiu⟩ := ih (fun k => junk (k + 1)) t hi hrest
    exact ⟨u, by simp only [run, ht, hu], hiu⟩

theorem Inv_unitAt {s : LineInfo} (h : Inv s) :
    s.m_nLength + s.m_nEolChars < s.m_nMax ∧
      s.unitAt (s.m_nLength + s.m_nEolChars) = some 0 := by
  obtain ⟨blk, hblk, _, hfull, hsent⟩ := h
  exact ⟨hfull, by simp only [unitAt, hblk]; exact hsent⟩

theorem classify_eq_zero (text : List Nat)
    (h : text[text.length - 1]? ≠ some 10 ∧ text[text.length - 1]? ≠ some 13) :
    classify text = 0 := by
  unfold classify
  rw [if_neg (fun c => h.1 c.2.2), if_neg (fun c => c.elim h.1 h.2)]

theorem RemoveEol_no_eol (s : LineInfo) (h : s.m_nEolChars = 0) : RemoveEol s = some s := by
  simp [RemoveEol, HasEol, h]

theorem Append_frame (align : Nat → Nat) (halign : ∀ n, n ≤ align n) (junk : Nat → Nat)
    (s : LineInfo) (hinv : Inv s) (frag : List Nat) (n : Nat) (hn : n ≤ frag.length)
    (bDetectEol : Bool)
    (hread : bDetectEol = true → 0 < n ∨ 0 < s.m_nLength + s.m_nEolChars) :
    ∃ t, Append align junk s frag n bDetectEol = some t ∧
      s.m_nMax ≤ t.m_nMax ∧ s.m_nLength + s.m_nEolChars + n + 1 ≤ t.m_nMax ∧
      (t.m_nMax = s.m_nMax ∨ (s.m_nMax < s.m_nLength + s.m_nEolChars + n + 1 ∧
        t.m_nMax = align (s.m_nLength + s.m_nEolChars + n + 1))) ∧
      (t.m_nEolChars = s.m_nEolChars ∨ t.m_nEolChars = 1 ∨ t.m_nEolChars = 2) ∧
      (bDetectEol = false → t.m_nEolChars = s.m_nEolChars) ∧
      t.m_dwFlags = s.m_dwFlags ∧ t.m_dwRevisionNumber = s.m_dwRevisionNumber := by
  obtain ⟨blk, hblk, hmax, hfull, hsent⟩ := hinv
  obtain ⟨M, blk2, hA0, hA1, hlen2, hroom, hM, hMeq, _, _, hz⟩ :=
    Append_spec align halign junk s blk frag n hblk hmax hfull hn
  cases bDetectEol with
  | false =>
    exact ⟨_, hA0, hM, by show _ ≤ M; omega, hMeq, Or.inl rfl, fun _ => rfl, rfl, rfl⟩
  | true =>
    refine ⟨_, hA1 (hread rfl), hM, by show _ ≤ M; omega, hMeq, ?_,
      fun h => Bool.noConfusion h, rfl, rfl⟩
    show (if _ then 2 else if _ then 1 else s.m_nEolChars) = s.m_nEolChars ∨
      (if _ then 2 else if _ then 1 else s.m_nEolChars) = 1 ∨
      (if _ then 2 else if _ then 1 else s.m_nEolChars) = 2
    split
    · exact Or.inr (Or.inr rfl)
    · split
      · exact Or.inr (Or.inl rfl)
      · exact Or.inl rfl

theorem Append_on_plain (align : Nat → Nat) (halign : ∀ n, n ≤ align n) (junk : Nat → Nat)
    (s : LineInfo) (hinv : Inv s) (h0 : s.m_nEolChars = 0) (frag : List Nat)
    (bDetectEol : Bool) (hread : bDetectEol = true → 0 < frag.length ∨ 0 < s.m_nLength) :
    ∃ t, Append align junk s frag frag.length bDetectEol = some t ∧ Inv t ∧
      t.content = s.body ++ frag ∧
      t.m_nLength + t.m_nEolChars = s.m_nLength + frag.length ∧
      t.m_nEolChars =
        (if bDetectEol = true then
          (if 1 < frag.length ∧
              (s.body ++ frag)[(s.body ++ frag).length - 2]? = some 13 ∧
              (s.body ++ frag)[(s.body ++ frag).length - 1]? = some 10 then 2
           else if (s.body ++ frag)[(s.body ++ frag).length - 1]? = some 10 ∨
              (s.body ++ frag)[(s.body ++ frag).length - 1]? = some 13 then 1
           else 0)
         else 0) ∧
      s.m_nMax ≤ t.m_nMax := by
  obtain ⟨t, hA, hIt, hsum, hcap, _⟩ :=
    Append_post align halign junk s hinv frag frag.length (le_refl _) bDetectEol
      (fun _ => h0) (fun hb => by rw [h0]; simpa using hread hb)
  obtain ⟨blk, hblk, hmax, hfull, hsent⟩ := hinv
  obtain ⟨M, blk2, hA0, hA1, hlen2, hroom, hM, hMeq, hpre, hfrag, hz⟩ :=
    Append_spec align halign junk s blk frag frag.length hblk hmax hfull (le_refl _)
  rw [h0] at hsum hA0 hA1 hroom hpre hfrag hz hfull
  simp only [Nat.add_zero] at hsum hA0 hA1 hroom hpre hfrag hz hfull
  have hbl : (blk.take s.m_nLength).length = s.m_nLength := by
    rw [List.length_take]; omega
  have hwl : (s.body ++ frag).length = s.m_nLength + frag.length := by
    simp only [body, hblk, List.length_append, hbl]
  -- the new block agrees with the old body followed by the fragment
  have hw : ∀ i, i < s.m_nLength + frag.length → blk2[i]? = (s.body ++ frag)[i]? := by
    intro i hi
    simp only [body, hblk]
    rw [List.getElem?_append, hbl]
    by_cases c : i < s.m_nLength
    · rw [if_pos c, hpre i c, List.getElem?_take, if_pos c]
    · rw [if_neg c]
      have e : i = s.m_nLength + (i - s.m_nLength) := by omega
      rw [e, hfrag (i - s.m_nLength) (by omega)]
      congr 1
      omega
  have hcontent : ∀ t : LineInfo, t.m_pcLine = some blk2 →
      t.m_nLength + t.m_nEolChars = s.m_nLength + frag.length →
      t.content = s.body ++ frag := by
    intro t hb hs
    simp only [content, hb, hs]
    apply List.ext_getElem?
    intro i
    rw [List.getElem?_take]
    by_cases c : i < s.m_nLength + frag.length
    · rw [if_pos c, hw i c]
    · rw [if_neg c, List.getElem?_eq_none (by omega)]
  cases bDetectEol with
  | false =>
    rw [hA0] at hA
    cases hA
    refine ⟨_, hA0, hIt, hcontent _ rfl hsum, hsum, ?_, hM⟩
    simp
  | true =>
    have hL : 0 < frag.length ∨ 0 < s.m_nLength := hread rfl
    rw [hA1 (by omega)] at hA
    cases hA
    refine ⟨_, hA1 (by omega), hIt, hcontent _ rfl hsum, hsum, ?_, hM⟩
    show (if _ then 2 else if _ then 1 else 0) = _
    have e1 : blk2[s.m_nLength + frag.length - 1]?
        = (s.body ++ frag)[s.m_nLength + frag.length - 1]? := hw _ (by omega)
    rw [if_pos rfl, hwl]
    by_cases c1 : 1 < frag.length
    · have e2 : blk2[s.m_nLength + frag.length - 2]?
          = (s.body ++ frag)[s.m_nLength + frag.length - 2]? := hw _ (by omega)
      simp only [e1, e2]
    · simp only [c1, false_and, if_false, e1]

theorem Delete_content (s : LineInfo) (hinv : Inv s) (nStartChar nEndChar : Nat)
    (hse : nStartChar ≤ nEndChar) (hef : nEndChar ≤ s.m_nLength + s.m_nEolChars) :
    ∃ t, Delete s nStartChar nEndChar = some t ∧ Inv t ∧
      t.content = s.content.take nStartChar ++ s.content.drop nEndChar ∧
      t.m_nLength + t.m_nEolChars = s.m_nLength + s.m_nEolChars - (nEndChar - nStartChar) ∧
      t.m_nEolChars ≤ s.m_nEolChars ∧ t.m_nMax = s.m_nMax := by
  obtain ⟨t, blk, blk2, hblk, hD, hblk2, hinvt, _, heol, hsum, hget, hcap, _⟩ :=
    Delete_post s hinv nStartChar nEndChar hse hef
  obtain ⟨_, hb, hmax, hfull, _⟩ := hinv
  rw [hblk] at hb
  cases hb
  refine ⟨t, hD, hinvt, ?_, hsum, ?_, hcap⟩
  · simp only [content, hblk, hblk2, hsum]
    apply List.ext_getElem?
    intro i
    rw [excise_getElem? _ _ _ hse (by simp; omega), List.getElem?_take, List.getElem?_take,
      List.getElem?_take]
    by_cases c : i < s.m_nLength + s.m_nEolChars - (nEndChar - nStartChar)
    · rw [if_pos c, hget i c]
      by_cases c1 : i < nStartChar
      · rw [if_pos c1, if_pos c1, if_pos (by omega)]
      · rw [if_neg c1, if_neg c1, if_pos (by omega)]
    · rw [if_neg c]
      by_cases c1 : i < nStartChar
      · omega
      · rw [if_neg c1, if_neg (by omega)]
  · rw [heol]
    split <;> omega

theorem classify_pos (text : List Nat)
    (h : text[text.length - 1]? = some 10 ∨ text[text.length - 1]? = some 13) :
    1 ≤ classify text := by
  unfold classify
  by_cases c : 2 ≤ text.length ∧ text[text.length - 2]? = some 13 ∧
      text[text.length - 1]? = some 10
  · rw [if_pos c]
    omega
  · rw [if_neg c, if_pos h]

theorem classify_two (text : List Nat)
    (h : 2 ≤ text.length ∧ text[text.length - 2]? = some 13 ∧ text[text.length - 1]? = some 10) :
    classify text = 2 := by
  unfold classify
  rw [if_pos h]

/-! ## The claims -/

/-- C1: for every text and every prior state, `Create (text, n)` with `n` the length of the text
has a result, and the view `GetLine (0)` of it starts with the `n` units of the text followed by
a zero unit: its first `m_nLength` units are the first `m_nLength` units of the text, the
`m_nEolChars` units after them are the rest of the text, and `m_nLength + m_nEolChars = n`. -/
theorem Create_then_GetLine (align : Nat → Nat) (halign : ∀ n, n ≤ align n) (s : LineInfo)
    (text : List Nat) :
    ∃ t view, Create align s text text.length = some t ∧ GetLine t 0 = some view ∧
      view.take (text.length + 1) = text ++ [0] ∧
      view.take t.m_nLength = text.take t.m_nLength ∧
      (view.drop t.m_nLength).take t.m_nEolChars = text.drop t.m_nLength ∧
      view[t.m_nLength + t.m_nEolChars]? = some 0 ∧
      t.m_nLength + t.m_nEolChars = text.length := by
  have hM := halign (text.length + 1)
  have hc := classify_le text
  have hsum : text.length - classify text + classify text = text.length := by omega
  refine ⟨created align s text,
    text ++ List.replicate (align (text.length + 1) - text.length) 0,
    Create_eq_created align halign s text, by simp [GetLine, created], ?_, ?_, ?_, ?_, hsum⟩
  · rw [List.take_append_eq_append_take,
      List.take_of_length_le (show text.length ≤ text.length + 1 by omega)]
    have e : text.length + 1 - text.length = 1 := by omega
    rw [e]
    obtain ⟨k, hk⟩ : ∃ k, align (text.length + 1) - text.length = k + 1 :=
      ⟨align (text.length + 1) - text.length - 1, by omega⟩
    rw [hk]
    simp [List.replicate_succ]
  · exact List.take_append_of_le_length (by simp only [created]; omega)
  · exact eol_created align s text
  · simp only [created]
    rw [hsum, List.getElem?_append_right (le_refl _)]
    simp [List.getElem?_replicate]
    omega

theorem Create_then_GetLine_witness :
    (∀ n, n ≤ ALIGN_BUF_SIZE 64 n) ∧
    ∃ t view, Create (ALIGN_BUF_SIZE 64) init [97, 98, 13, 10] 4 = some t ∧
      GetLine t 0 = some view ∧
      view.take (4 + 1) = [97, 98, 13, 10] ++ [0] ∧
      view.take t.m_nLength = [97, 98, 13, 10].take t.m_nLength ∧
      (view.drop t.m_nLength).take t.m_nEolChars = [97, 98, 13, 10].drop t.m_nLength ∧
      view[t.m_nLength + t.m_nEolChars]? = some 0 ∧
      t.m_nLength + t.m_nEolChars = 4 :=
  ⟨ALIGN_BUF_SIZE_ge 64 (by decide),
   Create_then_GetLine (ALIGN_BUF_SIZE 64) (ALIGN_BUF_SIZE_ge 64 (by decide)) init
     [97, 98, 13, 10]⟩

/-- C10: for every text of length `n` (`n ≥ 1`, and `n = 0` as well), `Create (text, n)` has a
result in which `m_nEolChars` is 2 when `n ≥ 2` and the last two units are carriage-return,
line-feed, else 1 when the last unit is a line-feed or a carriage-return, else 0, and
`m_nLength` is `n - m_nEolChars`. -/
theorem Create_classification (align : Nat → Nat) (halign : ∀ n, n ≤ align n) (s : LineInfo)
    (text : List Nat) :
    ∃ t, Create align s text text.length = some t ∧
      t.m_nEolChars =
        (if 2 ≤ text.length ∧ text[text.length - 2]? = some 13 ∧
            text[text.length - 1]? = some 10 then 2
         else if text[text.length - 1]? = some 10 ∨ text[text.length - 1]? = some 13 then 1
         else 0) ∧
      t.m_nLength = text.length - t.m_nEolChars :=
  ⟨created align s text, Create_eq_created align halign s text, rfl, rfl⟩

theorem Create_classification_witness :
    (∀ n, n ≤ ALIGN_BUF_SIZE 64 n) ∧
    ∃ t, Create (ALIGN_BUF_SIZE 64) init [97, 13, 10] [97, 13, 10].length = some t ∧
      t.m_nEolChars =
        (if 2 ≤ [97, 13, 10].length ∧ [97, 13, 10][[97, 13, 10].length - 2]? = some 13 ∧
            [97, 13, 10][[97, 13, 10].length - 1]? = some 10 then 2
         else if [97, 13, 10][[97, 13, 10].length - 1]? = some 10 ∨
            [97, 13, 10][[97, 13, 10].length - 1]? = some 13 then 1
         else 0) ∧
      t.m_nLength = [97, 13, 10].length - t.m_nEolChars :=
  ⟨ALIGN_BUF_SIZE_ge 64 (by decide),
   Create_classification (ALIGN_BUF_SIZE 64) (ALIGN_BUF_SIZE_ge 64 (by decide)) init
     [97, 13, 10]⟩

/-- C5: on an allocated buffer that satisfies the invariants, `Delete (start, end)` with
`start ≤ end ≤ m_nLength` has a result whose body is the old body without the units at
`[start, end)`, whose `m_nEolChars` is unchanged and whose end-of-line units are the old ones. -/
theorem Delete_within_body (s : LineInfo) (hinv : Inv s) (nStartChar nEndChar : Nat)
    (hse : nStartChar ≤ nEndChar) (hel : nEndChar ≤ s.m_nLength) :
    ∃ t, Delete s nStartChar nEndChar = some t ∧
      t.body = s.body.take nStartChar ++ s.body.drop nEndChar ∧
      t.m_nLength = s.m_nLength - (nEndChar - nStartChar) ∧
      t.m_nEolChars = s.m_nEolChars ∧ t.eol = s.eol := by
  obtain ⟨t, blk, blk2, hblk, hD, hblk2, hinvt, hlen, heol, _, hget, _⟩ :=
    Delete_post s hinv nStartChar nEndChar hse (by omega)
  obtain ⟨_, hb, hmax, hfull, _⟩ := hinv
  rw [hblk] at hb
  cases hb
  have hd : nEndChar - nStartChar ≤ s.m_nLength := by omega
  rw [if_pos hd] at hlen heol
  refine ⟨t, hD, ?_, hlen, heol, ?_⟩
  · simp only [body, hblk, hblk2, hlen]
    apply List.ext_getElem?
    intro i
    rw [excise_getElem? _ _ _ hse (by simp; omega), List.getElem?_take, List.getElem?_take,
      List.getElem?_take]
    by_cases c : i < s.m_nLength - (nEndChar - nStartChar)
    · rw [if_pos c, hget i (by omega)]
      by_cases c1 : i < nStartChar
      · rw [if_pos c1, if_pos c1, if_pos (by omega)]
      · rw [if_neg c1, if_neg c1, if_pos (by omega)]
    · rw [if_neg c]
      by_cases c1 : i < nStartChar
      · omega
      · rw [if_neg c1, if_neg (by omega)]
  · simp only [eol, hblk, hblk2, hlen, heol]
    apply take_congr_getElem?
    intro j hj
    rw [List.getElem?_drop, List.getElem?_drop, hget _ (by omega), if_neg (by omega)]
    congr 1
    omega

theorem Delete_within_body_witness :
    Inv { m_pcLine := some [104, 101, 108, 108, 111, 0, 0, 0], m_nLength := 5, m_nMax := 8,
          m_nEolChars := 0, m_dwFlags := 0, m_dwRevisionNumber := 0 } ∧
    (Delete { m_pcLine := some [104, 101, 108, 108, 111, 0, 0, 0], m_nLength := 5, m_nMax := 8,
              m_nEolChars := 0, m_dwFlags := 0, m_dwRevisionNumber := 0 } 1 3).map body
      = some [104, 108, 111] ∧
    ∃ t, Delete { m_pcLine := some [104, 101, 108, 108, 111, 0, 0, 0], m_nLength := 5,
                  m_nMax := 8, m_nEolChars := 0, m_dwFlags := 0, m_dwRevisionNumber := 0 } 1 3
        = some t ∧
      t.body = List.take 1 [104, 101, 108, 108, 111] ++ List.drop 3 [104, 101, 108, 108, 111] ∧
      t.m_nLength = 5 - (3 - 1) ∧ t.m_nEolChars = 0 ∧ t.eol = [] :=
  ⟨⟨_, rfl, rfl, by decide, rfl⟩, by decide,
   Delete_within_body _ ⟨_, rfl, rfl, by decide, rfl⟩ 1 3 (by decide) (by decide)⟩

/-- C8: on an allocated buffer that satisfies the invariants, `DeleteEnd (k)` with
`k ≤ m_nLength` has a result with `m_nEolChars = 0` and `m_nLength = k`, whose body is the first
`k` units of the old body and whose unit at offset `k` is zero, whatever `m_nEolChars` was. -/
theorem DeleteEnd_truncates (s : LineInfo) (hinv : Inv s) (k : Nat) (hk : k ≤ s.m_nLength) :
    ∃ t, DeleteEnd s k = some t ∧ t.m_nEolChars = 0 ∧ t.m_nLength = k ∧
      t.body = s.body.take k ∧ t.unitAt k = some 0 := by
  obtain ⟨t, ht, _, hlen, heol, hbody, hz, _⟩ := DeleteEnd_post s hinv k hk
  exact ⟨t, ht, heol, hlen, hbody, hz⟩

theorem DeleteEnd_truncates_witness :
    Inv { m_pcLine := some [97, 98, 13, 10, 0, 0, 0, 0], m_nLength := 2, m_nMax := 8,
          m_nEolChars := 2, m_dwFlags := 0, m_dwRevisionNumber := 0 } ∧
    (DeleteEnd { m_pcLine := some [97, 98, 13, 10, 0, 0, 0, 0], m_nLength := 2, m_nMax := 8,
                 m_nEolChars := 2, m_dwFlags := 0, m_dwRevisionNumber := 0 } 1).map
        (fun t => (t.m_pcLine, t.m_nLength, t.m_nEolChars))
      = some (some [97, 0, 13, 10, 0, 0, 0, 0], 1, 0) ∧
    ∃ t, DeleteEnd { m_pcLine := some [97, 98, 13, 10, 0, 0, 0, 0], m_nLength := 2, m_nMax := 8,
                     m_nEolChars := 2, m_dwFlags := 0, m_dwRevisionNumber := 0 } 1 = some t ∧
      t.m_nEolChars = 0 ∧ t.m_nLength = 1 ∧ t.body = List.take 1 [97, 98] ∧
      t.unitAt 1 = some 0 :=
  ⟨⟨_, rfl, rfl, by decide, rfl⟩, by decide,
   DeleteEnd_truncates _ ⟨_, rfl, rfl, by decide, rfl⟩ 1 (by decide)⟩

/-- C7: for every text and all terminator literals `T1`, `T2` (strings closed by a zero unit),
`Create (text, n)`, `ChangeEol (T1)`, `ChangeEol (T2)` all have a result; in the last one
`m_nEolChars` is the length of `T2`, the end-of-line units are `T2` and a zero unit follows them,
the body and `m_nLength` are those `Create` left, and one more `ChangeEol (T2)` returns false
and leaves the state as it is. -/
theorem ChangeEol_round_trip (align : Nat → Nat) (halign : ∀ n, n ≤ align n)
    (junk1 junk2 junk3 : Nat → Nat) (s : LineInfo) (text T1 rest1 T2 rest2 : List Nat)
    (hT1 : ∀ x ∈ T1, x ≠ 0) (hT2 : ∀ x ∈ T2, x ≠ 0) :
    ∃ t0 b1 t1 b2 t2, Create align s text text.length = some t0 ∧
      ChangeEol align junk1 t0 (T1 ++ 0 :: rest1) = some (b1, t1) ∧
      ChangeEol align junk2 t1 (T2 ++ 0 :: rest2) = some (b2, t2) ∧
      t2.m_nEolChars = T2.length ∧ t2.eol = T2 ∧
      t2.unitAt (t2.m_nLength + t2.m_nEolChars) = some 0 ∧
      t2.m_nLength = t0.m_nLength ∧ t2.body = t0.body ∧
      ChangeEol align junk3 t2 (T2 ++ 0 :: rest2) = some (false, t2) := by
  have h0 := Inv_created align halign s text
  obtain ⟨b1, t1, hc1, hi1, _, _, hl1, hb1, _⟩ :=
    ChangeEol_post align halign junk1 (created align s text) h0 T1 rest1 hT1
  obtain ⟨b2, t2, hc2, hi2, _, _, hl2, hb2, he2, hu2, _⟩ :=
    ChangeEol_post align halign junk2 t1 hi1 T2 rest2 hT2
  obtain ⟨b3, t3, hc3, _, hiff, hsame, _⟩ :=
    ChangeEol_post align halign junk3 t2 hi2 T2 rest2 hT2
  have hb3 : b3 = false := hiff.mpr ⟨he2.symm, hu2⟩
  have ht3 : t3 = t2 := hsame hb3
  rw [hb3, ht3] at hc3
  exact ⟨created align s text, b1, t1, b2, t2, Create_eq_created align halign s text, hc1, hc2,
    he2, hu2, (Inv_unitAt hi2).2, by rw [hl2, hl1], by rw [hb2, hb1], hc3⟩

theorem ChangeEol_round_trip_witness :
    (∀ n, n ≤ ALIGN_BUF_SIZE 64 n) ∧ (∀ x ∈ [13, 10], x ≠ 0) ∧ (∀ x ∈ [10], x ≠ 0) ∧
    ∃ t0 b1 t1 b2 t2, Create (ALIGN_BUF_SIZE 64) init [97, 98, 13] 3 = some t0 ∧
      ChangeEol (ALIGN_BUF_SIZE 64) (fun _ => 1) t0 ([13, 10] ++ 0 :: []) = some (b1, t1) ∧
      ChangeEol (ALIGN_BUF_SIZE 64) (fun _ => 2) t1 ([10] ++ 0 :: [7]) = some (b2, t2) ∧
      t2.m_nEolChars = 1 ∧ t2.eol = [10] ∧
      t2.unitAt (t2.m_nLength + t2.m_nEolChars) = some 0 ∧
      t2.m_nLength = t0.m_nLength ∧ t2.body = t0.body ∧
      ChangeEol (ALIGN_BUF_SIZE 64) (fun _ => 3) t2 ([10] ++ 0 :: [7]) = some (false, t2) :=
  ⟨ALIGN_BUF_SIZE_ge 64 (by decide), by decide, by decide,
   ChangeEol_round_trip (ALIGN_BUF_SIZE 64) (ALIGN_BUF_SIZE_ge 64 (by decide))
     (fun _ => 1) (fun _ => 2) (fun _ => 3) init [97, 98, 13] [13, 10] [] [10] [7]
     (by decide) (by decide)⟩

/-- C3, as amended: for every text `A` whose last unit is neither a line-feed nor a
carriage-return (the empty text included) and every fragment `B`, `Create (A)` followed by
`Append (B, |B|, false)` has a result whose body is `A` followed by `B`; `m_nEolChars` is 0
before and after the append, and `GetEol` returns the null pointer before and after. -/
theorem Create_then_Append_plain (align : Nat → Nat) (halign : ∀ n, n ≤ align n)
    (junk : Nat → Nat) (s : LineInfo) (A B : List Nat)
    (hA : A[A.length - 1]? ≠ some 10 ∧ A[A.length - 1]? ≠ some 13) :
    ∃ t0 t, Create align s A A.length = some t0 ∧
      Append align junk t0 B B.length false = some t ∧
      t0.body = A ∧ t.body = A ++ B ∧ t0.m_nEolChars = 0 ∧ t.m_nEolChars = 0 ∧
      GetEol t0 = none ∧ GetEol t = none ∧
      t.unitAt (t.m_nLength + t.m_nEolChars) = some 0 := by
  have hM := halign (A.length + 1)
  have hcl := classify_eq_zero A hA
  have hlen0 : (created align s A).m_nLength = A.length := by simp [created, hcl]
  have heol0 : (created align s A).m_nEolChars = 0 := by simp [created, hcl]
  obtain ⟨M, blk2, hApp, _, _, _, _, _, hpre, hfrag, hz⟩ :=
    Append_spec align halign junk (created align s A)
      (A ++ List.replicate (align (A.length + 1) - A.length) 0) B B.length rfl
      (by simp [created]; omega) (by rw [hlen0, heol0]; simp [created]; omega) (le_refl _)
  rw [hlen0, heol0] at hApp hpre hfrag hz
  simp only [Nat.add_zero] at hApp hpre hfrag hz
  refine ⟨created align s A, _, Create_eq_created align halign s A, hApp, ?_, ?_, heol0, rfl,
    by simp [GetEol, HasEol, heol0], by simp [GetEol, HasEol], ?_⟩
  · rw [body_created, hcl]
    simp
  · simp only [body]
    apply List.ext_getElem?
    intro i
    rw [List.getElem?_take, List.getElem?_append]
    by_cases c : i < A.length
    · rw [if_pos (by omega), if_pos c, hpre i c, List.getElem?_append_left c]
    · rw [if_neg c]
      by_cases c2 : i < A.length + B.length
      · have e : i = A.length + (i - A.length) := by omega
        rw [if_pos c2]
        rw [e, hfrag (i - A.length) (by omega)]
        congr 1
        omega
      · rw [if_neg c2, List.getElem?_eq_none (by omega)]
  · simp only [unitAt, Nat.add_zero]
    exact hz

theorem Create_then_Append_plain_witness :
    ([97, 98][[97, 98].length - 1]? ≠ some 10 ∧ [97, 98][[97, 98].length - 1]? ≠ some 13) ∧
    (∀ n, n ≤ ALIGN_BUF_SIZE 64 n) ∧
    ∃ t0 t, Create (ALIGN_BUF_SIZE 64) init [97, 98] 2 = some t0 ∧
      Append (ALIGN_BUF_SIZE 64) (fun _ => 1) t0 [99, 100] 2 false = some t ∧
      t0.body = [97, 98] ∧ t.body = [97, 98] ++ [99, 100] ∧ t0.m_nEolChars = 0 ∧
      t.m_nEolChars = 0 ∧ GetEol t0 = none ∧ GetEol t = none ∧
      t.unitAt (t.m_nLength + t.m_nEolChars) = some 0 :=
  ⟨by decide, ALIGN_BUF_SIZE_ge 64 (by decide),
   Create_then_Append_plain (ALIGN_BUF_SIZE 64) (ALIGN_BUF_SIZE_ge 64 (by decide)) (fun _ => 1)
     init [97, 98] [99, 100] (by decide)⟩

/-- C3 as stated fails: `Create` on `ab` followed by a line-feed leaves the body `ab` and the
line-feed as end-of-line unit; `Append` of `cd` without detection then leaves `m_nLength = 5`
with the body `ab`, line-feed, `cd` (not `abcd`), and `m_nEolChars = 1` with the closing zero as
the end-of-line unit (not the line-feed). -/
theorem Create_then_Append_keeps_no_eol :
    ∃ t0 t, Create (ALIGN_BUF_SIZE 64) init [97, 98, 10] 3 = some t0 ∧
      t0.body = [97, 98] ∧ t0.eol = [10] ∧
      Append (ALIGN_BUF_SIZE 64) (fun _ => 1) t0 [99, 100] 2 false = some t ∧
      t.body = [97, 98, 10, 99, 100] ∧ t.body ≠ [97, 98, 99, 100] ∧
      t.m_nEolChars = 1 ∧ t.eol = [0] ∧ t.eol ≠ [10] :=
  ⟨_, _, rfl, by decide, by decide, rfl, by decide, by decide, by decide, by decide, by decide⟩

/-- C6, as amended: for every source `li` that is allocated with a block of its recorded size
and every destination, `CopyFrom (li)` has a result whose block is a copy of the whole block of
`li` (so every unit, those at `[0, m_nLength + m_nEolChars]` of `li` among them, is the same as
in `li`), while `m_nLength`, `m_nEolChars`, `m_nMax` and the flag and revision fields of the
destination keep the values they had before the call. -/
theorem CopyFrom_copies_block (s li : LineInfo) (blk : List Nat)
    (hblk : li.m_pcLine = some blk) (hmax : blk.length = li.m_nMax) :
    ∃ t, CopyFrom s li = some t ∧ t.m_pcLine = some blk ∧ (∀ i, t.unitAt i = li.unitAt i) ∧
      t.m_nLength = s.m_nLength ∧ t.m_nEolChars = s.m_nEolChars ∧ t.m_nMax = s.m_nMax ∧
      t.m_dwFlags = s.m_dwFlags ∧ t.m_dwRevisionNumber = s.m_dwRevisionNumber := by
  have hm : memcpy (List.replicate li.m_nMax 0) 0 blk 0 li.m_nMax = some blk := by
    rw [memcpy_some _ _ _ _ _ (by omega) (by simp)]
    simp [← hmax]
  refine ⟨{ s with m_pcLine := some blk }, ?_, rfl, ?_, rfl, rfl, rfl, rfl, rfl⟩
  · unfold CopyFrom
    simp only [hblk, hm]
  · intro i
    simp only [unitAt, hblk]

theorem CopyFrom_copies_block_witness :
    sampleSource.m_pcLine = some [97, 98, 10, 0] ∧ [97, 98, 10, 0].length = sampleSource.m_nMax ∧
    ∃ t, CopyFrom sampleDestination sampleSource = some t ∧
      t.m_pcLine = some [97, 98, 10, 0] ∧ (∀ i, t.unitAt i = sampleSource.unitAt i) ∧
      t.m_nLength = sampleDestination.m_nLength ∧
      t.m_nEolChars = sampleDestination.m_nEolChars ∧ t.m_nMax = sampleDestination.m_nMax ∧
      t.m_dwFlags = sampleDestination.m_dwFlags ∧
      t.m_dwRevisionNumber = sampleDestination.m_dwRevisionNumber :=
  ⟨rfl, rfl, CopyFrom_copies_block sampleDestination sampleSource [97, 98, 10, 0] rfl rfl⟩

/-- C6 as stated fails: the source holds `ab` and a line-feed (`m_nLength = 2`,
`m_nEolChars = 1`, `m_nMax = 4`), the destination holds `x` (`m_nLength = 1`, `m_nEolChars = 0`,
`m_nMax = 2`); after `CopyFrom` the destination has the block of the source but still
`m_nLength = 1`, `m_nEolChars = 0` and `m_nMax = 2`. -/
theorem CopyFrom_keeps_lengths :
    ∃ t, CopyFrom sampleDestination sampleSource = some t ∧
      t.m_pcLine = sampleSource.m_pcLine ∧
      sampleSource.m_nLength = 2 ∧ t.m_nLength = 1 ∧
      sampleSource.m_nEolChars = 1 ∧ t.m_nEolChars = 0 ∧
      sampleSource.m_nMax = 4 ∧ t.m_nMax = 2 :=
  ⟨_, rfl, rfl, rfl, rfl, rfl, rfl, rfl, rfl⟩

/-- C4: the code at the claim's own example. `Create` on `ab`, carriage-return, line-feed leaves
the body `ab` and two end-of-line units; `Delete (1, 4)` then leaves `m_nLength = 0` and
`m_nEolChars = 1` with `a` as the end-of-line unit, where the claim has the body `a` and no
end-of-line unit. -/
theorem Delete_into_eol_miscounts :
    ∃ s t, Create (ALIGN_BUF_SIZE 64) init [97, 98, 13, 10] 4 = some s ∧
      s.body = [97, 98] ∧ s.eol = [13, 10] ∧
      Delete s 1 4 = some t ∧
      t.m_nLength = 0 ∧ t.m_nEolChars = 1 ∧ t.body = [] ∧ t.eol = [97] :=
  ⟨_, _, rfl, by decide, by decide, rfl, by decide, by decide, by decide, by decide⟩

/-- C9: the code on an unallocated buffer whose flag and revision fields are not zero, as
`FreeBuffer` leaves it: `Clear` changes nothing, so `m_dwFlags` stays 5 and
`m_dwRevisionNumber` stays 6, where the claim has both reset to zero. -/
theorem Clear_unallocated_keeps_flags :
    (FreeBuffer { m_pcLine := some [97, 0], m_nLength := 1, m_nMax := 2, m_nEolChars := 0,
                  m_dwFlags := 5, m_dwRevisionNumber := 6 }).m_pcLine = none ∧
    (Clear (FreeBuffer { m_pcLine := some [97, 0], m_nLength := 1, m_nMax := 2,
                         m_nEolChars := 0, m_dwFlags := 5, m_dwRevisionNumber := 6 })).m_dwFlags
      = 5 ∧
    (Clear (FreeBuffer { m_pcLine := some [97, 0], m_nLength := 1, m_nMax := 2,
                         m_nEolChars := 0, m_dwFlags := 5,
                         m_dwRevisionNumber := 6 })).m_dwRevisionNumber = 6 :=
  ⟨rfl, rfl, rfl⟩

/-- C2, as amended: starting from a buffer produced by `Create` or `CreateEmpty`, every finite
sequence of `Append`, `ChangeEol`, `RemoveEol`, `Delete`, `DeleteEnd` calls has a result with
`m_nLength + m_nEolChars < m_nMax` and a zero unit at offset `m_nLength + m_nEolChars`, when each
call is within its stated precondition and, for `Append`, the line has no end-of-line units if
`bDetectEol` is false, and the fragment or the line is not empty if `bDetectEol` is true. -/
theorem invariant_after_operations (align : Nat → Nat) (halign : ∀ n, n ≤ align n)
    (junk : Nat → Nat → Nat) (s s0 : LineInfo) (text : List Nat) (ops : List Op)
    (hs0 : Create align s text text.length = some s0 ∨ s0 = CreateEmpty align s)
    (hops : allowed Op.admitted align junk s0 ops = true) :
    ∃ t, run align junk s0 ops = some t ∧ t.m_nLength + t.m_nEolChars < t.m_nMax ∧
      t.unitAt (t.m_nLength + t.m_nEolChars) = some 0 := by
  have hinv : Inv s0 := by
    rcases hs0 with h | h
    · rw [Create_eq_created align halign s text] at h
      cases h
      exact Inv_created align halign s text
    · rw [h, CreateEmpty_eq_created]
      exact Inv_created align halign s []
  obtain ⟨t, ht, hi⟩ := run_Inv align halign ops junk s0 hinv hops
  exact ⟨t, ht, (Inv_unitAt hi).1, (Inv_unitAt hi).2⟩

theorem invariant_after_operations_witness :
    (∀ n, n ≤ ALIGN_BUF_SIZE 8 n) ∧
    (Create (ALIGN_BUF_SIZE 8) init [97, 98] [97, 98].length
        = some (created (ALIGN_BUF_SIZE 8) init [97, 98]) ∨
      created (ALIGN_BUF_SIZE 8) init [97, 98] = CreateEmpty (ALIGN_BUF_SIZE 8) init) ∧
    allowed Op.admitted (ALIGN_BUF_SIZE 8) (fun _ _ => 1)
      (created (ALIGN_BUF_SIZE 8) init [97, 98])
      [Op.append [99, 100, 13, 10] 4 true, Op.changeEol [10, 0], Op.delete 1 3, Op.removeEol,
       Op.append (List.replicate 12 120) 12 false, Op.deleteEnd 2] = true ∧
    ∃ t, run (ALIGN_BUF_SIZE 8) (fun _ _ => 1) (created (ALIGN_BUF_SIZE 8) init [97, 98])
        [Op.append [99, 100, 13, 10] 4 true, Op.changeEol [10, 0], Op.delete 1 3, Op.removeEol,
         Op.append (List.replicate 12 120) 12 false, Op.deleteEnd 2] = some t ∧
      t.m_nLength + t.m_nEolChars < t.m_nMax ∧
      t.unitAt (t.m_nLength + t.m_nEolChars) = some 0 :=
  ⟨ALIGN_BUF_SIZE_ge 8 (by decide), Or.inl (by decide), by decide,
   invariant_after_operations (ALIGN_BUF_SIZE 8) (ALIGN_BUF_SIZE_ge 8 (by decide))
     (fun _ _ => 1) init _ [97, 98] _ (Or.inl (by decide)) (by decide)⟩

/-- C2 as stated fails: after `Create` on `abcdefgh`, the calls `DeleteEnd (1)`, `ChangeEol` to a
line-feed and `Append` of `x` without detection are each within the stated precondition, and they
leave `m_nLength = 3` and `m_nEolChars = 1` with the unit `e` (101), not zero, at offset
`m_nLength + m_nEolChars`. -/
theorem invariant_broken_by_Append :
    ∃ s0 t, Create (ALIGN_BUF_SIZE 64) init [97, 98, 99, 100, 101, 102, 103, 104] 8 = some s0 ∧
      allowed Op.stated (ALIGN_BUF_SIZE 64) (fun _ _ => 0) s0
        [Op.deleteEnd 1, Op.changeEol [10, 0], Op.append [120] 1 false] = true ∧
      run (ALIGN_BUF_SIZE 64) (fun _ _ => 0) s0
        [Op.deleteEnd 1, Op.changeEol [10, 0], Op.append [120] 1 false] = some t ∧
      t.m_nLength = 3 ∧ t.m_nEolChars = 1 ∧
      t.unitAt (t.m_nLength + t.m_nEolChars) = some 101 :=
  ⟨_, _, rfl, by decide, rfl, by decide, by decide, by decide⟩

theorem Inv_sampleSource : Inv sampleSource :=
  ⟨_, rfl, rfl, by decide, rfl⟩

theorem Inv_sampleDestination : Inv sampleDestination :=
  ⟨_, rfl, rfl, by decide, rfl⟩

/-- C11: on an allocated buffer that satisfies the invariants, `ChangeEol` with the literal `T`
(a string closed by a zero unit) has a result; it returns false exactly when `T` has the length
and the units of the current end-of-line units, and then the state is unchanged; otherwise it
returns true, the body and `m_nLength` are unchanged, `m_nEolChars` is the length of `T`, and the
units from offset `m_nLength` are `T` followed by a zero unit. -/
theorem ChangeEol_reports_change (align : Nat → Nat) (halign : ∀ n, n ≤ align n)
    (junk : Nat → Nat) (s : LineInfo) (hinv : Inv s) (T rest : List Nat)
    (hT : ∀ x ∈ T, x ≠ 0) :
    ∃ b t, ChangeEol align junk s (T ++ 0 :: rest) = some (b, t) ∧
      (b = false ↔ (T.length = s.m_nEolChars ∧ s.eol = T)) ∧
      (b = false → t = s) ∧
      (b = true → t.body = s.body ∧ t.m_nLength = s.m_nLength ∧ t.m_nEolChars = T.length ∧
        t.eol = T ∧ t.unitAt (t.m_nLength + T.length) = some 0) := by
  obtain ⟨b, t, hC, hIt, hiff, hsame, hlen, hbody, heol, hunits, _⟩ :=
    ChangeEol_post align halign junk s hinv T rest hT
  refine ⟨b, t, hC, hiff, hsame, fun _ => ⟨hbody, hlen, heol, hunits, ?_⟩⟩
  have h := (Inv_unitAt hIt).2
  rw [heol] at h
  exact h

theorem ChangeEol_reports_change_witness :
    (∀ n, n ≤ ALIGN_BUF_SIZE 64 n) ∧ Inv sampleSource ∧ (∀ x ∈ [13, 10], x ≠ 0) ∧
    ∃ b t, ChangeEol (ALIGN_BUF_SIZE 64) (fun _ => 1) sampleSource ([13, 10] ++ 0 :: []) = some (b, t) ∧
      (b = false ↔ ([13, 10].length = sampleSource.m_nEolChars ∧ sampleSource.eol = [13, 10])) ∧
      (b = false → t = sampleSource) ∧
      (b = true → t.body = sampleSource.body ∧ t.m_nLength = sampleSource.m_nLength ∧
        t.m_nEolChars = [13, 10].length ∧ t.eol = [13, 10] ∧
        t.unitAt (t.m_nLength + [13, 10].length) = some 0) :=
  ⟨ALIGN_BUF_SIZE_ge 64 (by decide), Inv_sampleSource, by decide,
   ChangeEol_reports_change (ALIGN_BUF_SIZE 64) (ALIGN_BUF_SIZE_ge 64 (by decide)) (fun _ => 1)
     sampleSource Inv_sampleSource [13, 10] [] (by decide)⟩

/-- C15: on an allocated buffer that satisfies the invariants, `RemoveEol` has a result with
`m_nEolChars = 0` and `HasEol` false, with `m_nLength` and the body unchanged and a zero unit at
offset `m_nLength`; `RemoveEol` on that result returns it as it is. -/
theorem RemoveEol_idempotent (s : LineInfo) (hinv : Inv s) :
    ∃ t, RemoveEol s = some t ∧ t.m_nEolChars = 0 ∧ t.HasEol = false ∧
      t.m_nLength = s.m_nLength ∧ t.body = s.body ∧ t.unitAt t.m_nLength = some 0 ∧
      RemoveEol t = some t := by
  obtain ⟨t, ht, _, hlen, heol, hbody, hz, _⟩ := RemoveEol_post s hinv
  exact ⟨t, ht, heol, by simp [HasEol, heol], hlen, hbody, hz, RemoveEol_no_eol t heol⟩

theorem RemoveEol_idempotent_witness :
    Inv sampleSource ∧
    ∃ t, RemoveEol sampleSource = some t ∧ t.m_nEolChars = 0 ∧ t.HasEol = false ∧
      t.m_nLength = sampleSource.m_nLength ∧ t.body = sampleSource.body ∧
      t.unitAt t.m_nLength = some 0 ∧ RemoveEol t = some t :=
  ⟨Inv_sampleSource, RemoveEol_idempotent sampleSource Inv_sampleSource⟩

/-- C18: on an allocated buffer that satisfies the invariants, `Delete (start, end)` with
`0 ≤ start ≤ end ≤ m_nLength + m_nEolChars` has a result whose combined region is the old
combined region without the units at `[start, end)`, whose two counts sum to the old sum less
`end - start`, whose `m_nEolChars` is at most the old one, and which has a zero unit at the
offset of the new sum. -/
theorem Delete_excises_range (s : LineInfo) (hinv : Inv s) (nStartChar nEndChar : Nat)
    (hse : nStartChar ≤ nEndChar) (hef : nEndChar ≤ s.m_nLength + s.m_nEolChars) :
    ∃ t, Delete s nStartChar nEndChar = some t ∧
      t.content = s.content.take nStartChar ++ s.content.drop nEndChar ∧
      t.m_nLength + t.m_nEolChars = s.m_nLength + s.m_nEolChars - (nEndChar - nStartChar) ∧
      0 ≤ t.m_nEolChars ∧ t.m_nEolChars ≤ s.m_nEolChars ∧
      t.unitAt (t.m_nLength + t.m_nEolChars) = some 0 := by
  obtain ⟨t, hD, hIt, hcontent, hsum, heol, _⟩ :=
    Delete_content s hinv nStartChar nEndChar hse hef
  exact ⟨t, hD, hcontent, hsum, Nat.zero_le _, heol, (Inv_unitAt hIt).2⟩

theorem Delete_excises_range_witness :
    Inv sampleSource ∧ 1 ≤ 3 ∧ 3 ≤ sampleSource.m_nLength + sampleSource.m_nEolChars ∧
    (Delete sampleSource 1 3).map (fun t => (t.content, t.m_nLength, t.m_nEolChars))
      = some ([97], 0, 1) ∧
    ∃ t, Delete sampleSource 1 3 = some t ∧
      t.content = sampleSource.content.take 1 ++ sampleSource.content.drop 3 ∧
      t.m_nLength + t.m_nEolChars
        = sampleSource.m_nLength + sampleSource.m_nEolChars - (3 - 1) ∧
      0 ≤ t.m_nEolChars ∧ t.m_nEolChars ≤ sampleSource.m_nEolChars ∧
      t.unitAt (t.m_nLength + t.m_nEolChars) = some 0 :=
  ⟨Inv_sampleSource, by decide, by decide, by decide,
   Delete_excises_range sampleSource Inv_sampleSource 1 3 (by decide) (by decide)⟩

/-- C20: on an allocated buffer with `m_nEolChars = 0` that satisfies the invariants (room for
the closing zero, and the zero in place at offset `m_nLength`), `Append` of a fragment of `n`
units (not empty when `bDetectEol` is true) has a result whose combined region is the old body
followed by the fragment, whose counts sum to the old `m_nLength` plus `n`, whose `m_nEolChars`
is 0, 1 or 2 (0 when `bDetectEol` is false), with the sum below the new `m_nMax` and a zero unit
at the offset of the sum, whether or not the call reallocates. -/
theorem Append_on_eol_free_line (align : Nat → Nat) (halign : ∀ n, n ≤ align n)
    (junk : Nat → Nat) (s : LineInfo) (hinv : Inv s) (h0 : s.m_nEolChars = 0) (frag : List Nat)
    (bDetectEol : Bool) (hne : bDetectEol = true → 0 < frag.length) :
    ∃ t, Append align junk s frag frag.length bDetectEol = some t ∧
      t.content = s.body ++ frag ∧
      t.m_nLength + t.m_nEolChars = s.m_nLength + frag.length ∧
      t.m_nEolChars ≤ 2 ∧ (bDetectEol = false → t.m_nEolChars = 0) ∧
      t.m_nLength + t.m_nEolChars < t.m_nMax ∧
      t.unitAt (t.m_nLength + t.m_nEolChars) = some 0 := by
  obtain ⟨t, hA, hIt, hcontent, hsum, heol, _⟩ :=
    Append_on_plain align halign junk s hinv h0 frag bDetectEol (fun h => Or.inl (hne h))
  refine ⟨t, hA, hcontent, hsum, ?_, ?_, (Inv_unitAt hIt).1, (Inv_unitAt hIt).2⟩
  · rw [heol]
    split
    · split
      · omega
      · split <;> omega
    · omega
  · intro hb
    rw [heol, if_neg (by simp [hb])]

theorem Append_on_eol_free_line_witness :
    (∀ n, n ≤ ALIGN_BUF_SIZE 2 n) ∧ Inv sampleDestination ∧
    sampleDestination.m_nEolChars = 0 ∧ (true = true → 0 < [121, 13, 10].length) ∧
    (Append (ALIGN_BUF_SIZE 2) (fun _ => 1) sampleDestination [121, 13, 10] 3 true).map
        (fun t => (t.content, t.m_nLength, t.m_nEolChars, t.m_nMax))
      = some ([120, 121, 13, 10], 2, 2, 6) ∧
    ∃ t, Append (ALIGN_BUF_SIZE 2) (fun _ => 1) sampleDestination [121, 13, 10]
        [121, 13, 10].length true = some t ∧
      t.content = sampleDestination.body ++ [121, 13, 10] ∧
      t.m_nLength + t.m_nEolChars = sampleDestination.m_nLength + [121, 13, 10].length ∧
      t.m_nEolChars ≤ 2 ∧ (true = false → t.m_nEolChars = 0) ∧
      t.m_nLength + t.m_nEolChars < t.m_nMax ∧
      t.unitAt (t.m_nLength + t.m_nEolChars) = some 0 :=
  ⟨ALIGN_BUF_SIZE_ge 2 (by decide), Inv_sampleDestination, rfl, fun _ => by decide, by decide,
   Append_on_eol_free_line (ALIGN_BUF_SIZE 2) (ALIGN_BUF_SIZE_ge 2 (by decide)) (fun _ => 1)
     sampleDestination Inv_sampleDestination rfl [121, 13, 10] true (fun _ => by decide)⟩

/-- C19: on an allocated buffer that satisfies the invariants, with `m_nEolChars = 0` and a body
that does not end in a carriage-return (invariant I5 has it end in neither a carriage-return nor
a line-feed), `Append` of a non-empty fragment with `bDetectEol` true has a result whose combined
region is the old body followed by the fragment; `m_nEolChars` is the result of the classifier
on that whole sequence (2 when its length is at least 2 and its last two units are
carriage-return, line-feed, else 1 when its last unit is a line-feed or a carriage-return,
else 0), and `m_nLength` is the old `m_nLength` plus `n` less `m_nEolChars`. -/
theorem Append_detects_eol (align : Nat → Nat) (halign : ∀ n, n ≤ align n)
    (junk : Nat → Nat) (s : LineInfo) (hinv : Inv s) (h0 : s.m_nEolChars = 0)
    (hI5 : s.body[s.body.length - 1]? ≠ some 13) (frag : List Nat) (hne : 0 < frag.length) :
    ∃ t, Append align junk s frag frag.length true = some t ∧
      t.content = s.body ++ frag ∧
      t.m_nEolChars =
        (if 2 ≤ (s.body ++ frag).length ∧
            (s.body ++ frag)[(s.body ++ frag).length - 2]? = some 13 ∧
            (s.body ++ frag)[(s.body ++ frag).length - 1]? = some 10 then 2
         else if (s.body ++ frag)[(s.body ++ frag).length - 1]? = some 10 ∨
            (s.body ++ frag)[(s.body ++ frag).length - 1]? = some 13 then 1
         else 0) ∧
      t.m_nEolChars = classify (s.body ++ frag) ∧
      t.m_nLength = s.m_nLength + frag.length - t.m_nEolChars := by
  obtain ⟨t, hA, _, hcontent, hsum, heol, _⟩ :=
    Append_on_plain align halign junk s hinv h0 frag true (fun _ => Or.inl hne)
  rw [if_pos rfl] at heol
  have hwl : (s.body ++ frag).length = s.body.length + frag.length := List.length_append _ _
  -- the guard on the fragment and the guard on the whole line admit the same lines
  have hiff : (1 < frag.length ∧
        (s.body ++ frag)[(s.body ++ frag).length - 2]? = some 13 ∧
        (s.body ++ frag)[(s.body ++ frag).length - 1]? = some 10) ↔
      (2 ≤ (s.body ++ frag).length ∧
        (s.body ++ frag)[(s.body ++ frag).length - 2]? = some 13 ∧
        (s.body ++ frag)[(s.body ++ frag).length - 1]? = some 10) := by
    constructor
    · intro h
      exact ⟨by omega, h.2⟩
    · intro h
      refine ⟨?_, h.2⟩
      by_contra hn1
      have h1 : frag.length = 1 := by omega
      have hb : 1 ≤ s.body.length := by omega
      have hA13 := h.2.1
      have e : (s.body ++ frag).length - 2 = s.body.length - 1 := by omega
      rw [e, List.getElem?_append_left (by omega)] at hA13
      exact hI5 hA13
  have heol2 := heol.trans (if_congr hiff rfl rfl)
  exact ⟨t, hA, hcontent, heol2, heol2, by omega⟩

theorem Append_detects_eol_witness :
    (∀ n, n ≤ ALIGN_BUF_SIZE 2 n) ∧ Inv sampleDestination ∧
    sampleDestination.m_nEolChars = 0 ∧
    sampleDestination.body[sampleDestination.body.length - 1]? ≠ some 13 ∧
    0 < [121, 13, 10].length ∧
    (Append (ALIGN_BUF_SIZE 2) (fun _ => 1) sampleDestination [121, 13, 10] 3 true).map
        (fun t => (t.content, t.m_nLength, t.m_nEolChars))
      = some ([120, 121, 13, 10], 2, 2) ∧
    ∃ t, Append (ALIGN_BUF_SIZE 2) (fun _ => 1) sampleDestination [121, 13, 10]
        [121, 13, 10].length true = some t ∧
      t.content = sampleDestination.body ++ [121, 13, 10] ∧
      t.m_nEolChars =
        (if 2 ≤ (sampleDestination.body ++ [121, 13, 10]).length ∧
            (sampleDestination.body ++ [121, 13, 10])[
              (sampleDestination.body ++ [121, 13, 10]).length - 2]? = some 13 ∧
            (sampleDestination.body ++ [121, 13, 10])[
              (sampleDestination.body ++ [121, 13, 10]).length - 1]? = some 10 then 2
         else if (sampleDestination.body ++ [121, 13, 10])[
              (sampleDestination.body ++ [121, 13, 10]).length - 1]? = some 10 ∨
            (sampleDestination.body ++ [121, 13, 10])[
              (sampleDestination.body ++ [121, 13, 10]).length - 1]? = some 13 then 1
         else 0) ∧
      t.m_nEolChars = classify (sampleDestination.body ++ [121, 13, 10]) ∧
      t.m_nLength = sampleDestination.m_nLength + [121, 13, 10].length - t.m_nEolChars :=
  ⟨ALIGN_BUF_SIZE_ge 2 (by decide), Inv_sampleDestination, rfl, by decide, by decide, by decide,
   Append_detects_eol (ALIGN_BUF_SIZE 2) (ALIGN_BUF_SIZE_ge 2 (by decide)) (fun _ => 1)
     sampleDestination Inv_sampleDestination rfl (by decide) [121, 13, 10] (by decide)⟩

/-- C13: the code on an empty line and an empty fragment. After `CreateEmpty`, the call
`Append` with `nLength = 0` and `bDetectEol` true reaches line 143 with `m_nLength = 0`, so the
unit it hands to `IsEol` has index `-1`, before the block, and the call has no result; the same
call with `bDetectEol` false has one. -/
theorem Append_empty_reads_before_block :
    (CreateEmpty (ALIGN_BUF_SIZE 64) init).m_nLength = 0 ∧
    (CreateEmpty (ALIGN_BUF_SIZE 64) init).m_nEolChars = 0 ∧
    lastReadIndex (CreateEmpty (ALIGN_BUF_SIZE 64) init) 0 = -1 ∧
    Append (ALIGN_BUF_SIZE 64) (fun _ => 1) (CreateEmpty (ALIGN_BUF_SIZE 64) init) [] 0 true
      = none ∧
    (Append (ALIGN_BUF_SIZE 64) (fun _ => 1) (CreateEmpty (ALIGN_BUF_SIZE 64) init) [] 0
      false).isSome = true :=
  ⟨rfl, rfl, by decide, by decide, by decide⟩

/-- C14, as amended: for every text, `Create (text, n)` has a result whose body is the text
without its last `m_nEolChars` units and whose end-of-line units are those last units;
`m_nEolChars` is at least 1 whenever the text ends in a line-feed or a carriage-return and is 2
whenever it ends in carriage-return, line-feed, so that with `m_nEolChars = 0` the body does not
end in a line-feed or a carriage-return. -/
theorem Create_counts_last_terminator (align : Nat → Nat) (halign : ∀ n, n ≤ align n)
    (s : LineInfo) (text : List Nat) :
    ∃ t, Create align s text text.length = some t ∧
      t.body = text.take (text.length - t.m_nEolChars) ∧
      t.eol = text.drop (text.length - t.m_nEolChars) ∧
      (text[text.length - 1]? = some 10 ∨ text[text.length - 1]? = some 13 →
        1 ≤ t.m_nEolChars) ∧
      (2 ≤ text.length ∧ text[text.length - 2]? = some 13 ∧ text[text.length - 1]? = some 10 →
        t.m_nEolChars = 2) ∧
      (t.m_nEolChars = 0 →
        t.body = text ∧ t.body[t.body.length - 1]? ≠ some 10 ∧
          t.body[t.body.length - 1]? ≠ some 13) := by
  refine ⟨created align s text, Create_eq_created align halign s text, body_created align s text,
    eol_created align s text, classify_pos text, classify_two text, ?_⟩
  intro h
  have h1 : classify text = 0 := h
  have hb : (created align s text).body = text := by
    rw [body_created, h1]
    simp
  rw [hb]
  refine ⟨rfl, fun h10 => ?_, fun h13 => ?_⟩
  · have := classify_pos text (Or.inl h10)
    omega
  · have := classify_pos text (Or.inr h13)
    omega

theorem Create_counts_last_terminator_witness :
    (∀ n, n ≤ ALIGN_BUF_SIZE 64 n) ∧
    (Create (ALIGN_BUF_SIZE 64) init [97, 13, 10] 3).map (fun t => (t.body, t.eol))
      = some ([97], [13, 10]) ∧
    ∃ t, Create (ALIGN_BUF_SIZE 64) init [97, 13, 10] [97, 13, 10].length = some t ∧
      t.body = [97, 13, 10].take ([97, 13, 10].length - t.m_nEolChars) ∧
      t.eol = [97, 13, 10].drop ([97, 13, 10].length - t.m_nEolChars) ∧
      ([97, 13, 10][[97, 13, 10].length - 1]? = some 10 ∨
        [97, 13, 10][[97, 13, 10].length - 1]? = some 13 → 1 ≤ t.m_nEolChars) ∧
      (2 ≤ [97, 13, 10].length ∧ [97, 13, 10][[97, 13, 10].length - 2]? = some 13 ∧
        [97, 13, 10][[97, 13, 10].length - 1]? = some 10 → t.m_nEolChars = 2) ∧
      (t.m_nEolChars = 0 →
        t.body = [97, 13, 10] ∧ t.body[t.body.length - 1]? ≠ some 10 ∧
          t.body[t.body.length - 1]? ≠ some 13) :=
  ⟨ALIGN_BUF_SIZE_ge 64 (by decide), by decide,
   Create_counts_last_terminator (ALIGN_BUF_SIZE 64) (ALIGN_BUF_SIZE_ge 64 (by decide)) init
     [97, 13, 10]⟩

/-- C14 as stated fails: `Create` on two line-feeds counts one of them as end-of-line unit and
leaves the other as the body, so the body ends in a line-feed; and `DeleteEnd (2)` on the body
`a`, line-feed, `b` leaves the body `a`, line-feed with `m_nEolChars = 0`. -/
theorem body_may_end_in_line_feed :
    (∃ t, Create (ALIGN_BUF_SIZE 64) init [10, 10] 2 = some t ∧ t.m_nEolChars = 1 ∧
      t.body = [10] ∧ t.body[t.body.length - 1]? = some 10) ∧
    (∃ s0 t, Create (ALIGN_BUF_SIZE 64) init [97, 10, 98] 3 = some s0 ∧
      DeleteEnd s0 2 = some t ∧ t.m_nEolChars = 0 ∧ t.body = [97, 10] ∧
      t.body[t.body.length - 1]? = some 10) :=
  ⟨⟨_, rfl, by decide, by decide, by decide⟩,
   ⟨_, _, rfl, rfl, by decide, by decide, by decide⟩⟩

/-- C17: on an allocated buffer that satisfies the invariants, the reallocation step that
`Append` and `ChangeEol` start with (lines 118-129 and 190-201) yields, for every required size,
a capacity that is at least the old `m_nMax` and at least the required size, and that is the
rounded required size where it differs from the old one. Each of `Append` (with detection: on a
fragment or a line that is not empty), `ChangeEol`, `RemoveEol`, `Delete` and `DeleteEnd`, called
within its precondition, has a result whose `m_nMax` is at least the old one; after `Append` and
`ChangeEol` it is at least the required size (`m_nLength + m_nEolChars + nLength + 1`, and
`m_nLength` plus the length of the literal plus 1), and the other three leave it as it is. -/
theorem capacity_never_shrinks (align : Nat → Nat) (halign : ∀ n, n ≤ align n)
    (junk : Nat → Nat) (s : LineInfo) (hinv : Inv s) :
    (∀ nBufNeeded : Nat, ∃ M blk1, grow align junk s nBufNeeded = some (M, some blk1) ∧
      s.m_nMax ≤ M ∧ nBufNeeded ≤ M ∧ (M ≠ s.m_nMax → M = align nBufNeeded)) ∧
    (∀ (frag : List Nat) (n : Nat) (bDetectEol : Bool), n ≤ frag.length →
      (bDetectEol = true → 0 < n ∨ 0 < s.m_nLength + s.m_nEolChars) →
      ∃ t, Append align junk s frag n bDetectEol = some t ∧ s.m_nMax ≤ t.m_nMax ∧
        s.m_nLength + s.m_nEolChars + n + 1 ≤ t.m_nMax ∧
        (t.m_nMax ≠ s.m_nMax → t.m_nMax = align (s.m_nLength + s.m_nEolChars + n + 1))) ∧
    (∀ T rest : List Nat, (∀ x ∈ T, x ≠ 0) →
      ∃ b t, ChangeEol align junk s (T ++ 0 :: rest) = some (b, t) ∧ s.m_nMax ≤ t.m_nMax ∧
        s.m_nLength + T.length + 1 ≤ t.m_nMax ∧
        (t.m_nMax ≠ s.m_nMax → t.m_nMax = align (s.m_nLength + T.length + 1))) ∧
    (∃ t, RemoveEol s = some t ∧ t.m_nMax = s.m_nMax) ∧
    (∀ nStartChar nEndChar : Nat, nStartChar ≤ nEndChar →
      nEndChar ≤ s.m_nLength + s.m_nEolChars →
      ∃ t, Delete s nStartChar nEndChar = some t ∧ t.m_nMax = s.m_nMax) ∧
    (∀ nStartChar : Nat, nStartChar ≤ s.m_nLength →
      ∃ t, DeleteEnd s nStartChar = some t ∧ t.m_nMax = s.m_nMax) := by
  refine ⟨?_, ?_, ?_, ?_, ?_, ?_⟩
  · intro nBufNeeded
    obtain ⟨blk, hblk, hmax, hfull, _⟩ := hinv
    obtain ⟨M, blk1, hg, _, hneed, hge, hor, _⟩ :=
      grow_spec align halign junk s blk nBufNeeded hblk hmax hfull
    exact ⟨M, blk1, hg, hge, hneed, fun hne => hor.elim (fun h => absurd h hne) (fun h => h.2)⟩
  · intro frag n bDetectEol hn hread
    obtain ⟨t, hA, hge, hneed, hor, _⟩ :=
      Append_frame align halign junk s hinv frag n hn bDetectEol hread
    exact ⟨t, hA, hge, hneed, fun hne => hor.elim (fun h => absurd h hne) (fun h => h.2)⟩
  · intro T rest hT
    obtain ⟨b, t, hC, hIt, _, _, hlen, _, heol, _, hge, hor, _⟩ :=
      ChangeEol_post align halign junk s hinv T rest hT
    have hroom := (Inv_unitAt hIt).1
    rw [hlen, heol] at hroom
    exact ⟨b, t, hC, hge, by omega, fun hne => hor.elim (fun h => absurd h hne) (fun h => h.2)⟩
  · obtain ⟨t, ht, _, _, _, _, _, hcap, _⟩ := RemoveEol_post s hinv
    exact ⟨t, ht, hcap⟩
  · intro a b hab hb
    obtain ⟨t, hD, _, _, _, _, hcap⟩ := Delete_content s hinv a b hab hb
    exact ⟨t, hD, hcap⟩
  · intro k hk
    obtain ⟨t, ht, _, _, _, _, _, hcap, _⟩ := DeleteEnd_post s hinv k hk
    exact ⟨t, ht, hcap⟩

theorem capacity_never_shrinks_witness :
    (∀ n, n ≤ ALIGN_BUF_SIZE 2 n) ∧ Inv sampleSource ∧
    (Append (ALIGN_BUF_SIZE 2) (fun _ => 1) sampleSource [120, 121] 2 true).map
        (fun t => t.m_nMax) = some 8 ∧
    ∃ t, Append (ALIGN_BUF_SIZE 2) (fun _ => 1) sampleSource [120, 121] 2 true = some t ∧
      sampleSource.m_nMax ≤ t.m_nMax ∧
      sampleSource.m_nLength + sampleSource.m_nEolChars + 2 + 1 ≤ t.m_nMax ∧
      (t.m_nMax ≠ sampleSource.m_nMax →
        t.m_nMax = ALIGN_BUF_SIZE 2
          (sampleSource.m_nLength + sampleSource.m_nEolChars + 2 + 1)) :=
  ⟨ALIGN_BUF_SIZE_ge 2 (by decide), Inv_sampleSource, by decide,
   (capacity_never_shrinks (ALIGN_BUF_SIZE 2) (ALIGN_BUF_SIZE_ge 2 (by decide)) (fun _ => 1)
     sampleSource Inv_sampleSource).2.1 [120, 121] 2 true (by decide) (fun _ => by decide)⟩

/-- C12, as amended: on a buffer with `m_nEolChars` in `{0, 1, 2}`, each of `Create`,
`CreateEmpty`, `Clear`, `FreeBuffer` and `CopyFrom`, and on an allocated buffer that satisfies
the invariants each of `Append` (with detection: on a fragment or a line that is not empty),
`RemoveEol`, `Delete` and `DeleteEnd` within its precondition, has a result with `m_nEolChars` in
`{0, 1, 2}`; `ChangeEol` has a result whose `m_nEolChars` is the length of the literal passed in,
which is in `{0, 1, 2}` when the literal has at most two units. -/
theorem eolLength_range (align : Nat → Nat) (halign : ∀ n, n ≤ align n)
    (junk : Nat → Nat) (s : LineInfo) (h2 : s.m_nEolChars ≤ 2) :
    (∀ text : List Nat, ∃ t, Create align s text text.length = some t ∧ t.m_nEolChars ≤ 2) ∧
    (CreateEmpty align s).m_nEolChars ≤ 2 ∧
    (Clear s).m_nEolChars ≤ 2 ∧ (FreeBuffer s).m_nEolChars ≤ 2 ∧
    (∀ (li : LineInfo) (blk : List Nat), li.m_pcLine = some blk → blk.length = li.m_nMax →
      ∃ t, CopyFrom s li = some t ∧ t.m_nEolChars ≤ 2) ∧
    (Inv s →
      (∀ (frag : List Nat) (n : Nat) (bDetectEol : Bool), n ≤ frag.length →
        (bDetectEol = true → 0 < n ∨ 0 < s.m_nLength + s.m_nEolChars) →
        ∃ t, Append align junk s frag n bDetectEol = some t ∧ t.m_nEolChars ≤ 2) ∧
      (∀ T rest : List Nat, (∀ x ∈ T, x ≠ 0) →
        ∃ b t, ChangeEol align junk s (T ++ 0 :: rest) = some (b, t) ∧
          t.m_nEolChars = T.length ∧ (T.length ≤ 2 → t.m_nEolChars ≤ 2)) ∧
      (∃ t, RemoveEol s = some t ∧ t.m_nEolChars ≤ 2) ∧
      (∀ nStartChar nEndChar : Nat, nStartChar ≤ nEndChar →
        nEndChar ≤ s.m_nLength + s.m_nEolChars →
        ∃ t, Delete s nStartChar nEndChar = some t ∧ t.m_nEolChars ≤ 2) ∧
      (∀ nStartChar : Nat, nStartChar ≤ s.m_nLength →
        ∃ t, DeleteEnd s nStartChar = some t ∧ t.m_nEolChars ≤ 2)) := by
  refine ⟨?_, Nat.zero_le _, ?_, ?_, ?_, ?_⟩
  · intro text
    exact ⟨created align s text, Create_eq_created align halign s text, classify_le_two text⟩
  · unfold Clear
    split
    · exact Nat.zero_le _
    · exact h2
  · unfold FreeBuffer
    split
    · exact Nat.zero_le _
    · exact h2
  · intro li blk hblk hmax
    have hm : memcpy (List.replicate li.m_nMax 0) 0 blk 0 li.m_nMax = some blk := by
      rw [memcpy_some _ _ _ _ _ (by omega) (by simp)]
      simp [← hmax]
    refine ⟨{ s with m_pcLine := some blk }, ?_, h2⟩
    unfold CopyFrom
    simp only [hblk, hm]
  · intro hinv
    refine ⟨?_, ?_, ?_, ?_, ?_⟩
    · intro frag n bDetectEol hn hread
      obtain ⟨t, hA, _, _, _, hcases, _⟩ :=
        Append_frame align halign junk s hinv frag n hn bDetectEol hread
      exact ⟨t, hA, by rcases hcases with h | h | h <;> omega⟩
    · intro T rest hT
      obtain ⟨b, t, hC, _, _, _, _, _, heol, _⟩ :=
        ChangeEol_post align halign junk s hinv T rest hT
      exact ⟨b, t, hC, heol, fun h => by omega⟩
    · obtain ⟨t, ht, _, _, heol, _⟩ := RemoveEol_post s hinv
      exact ⟨t, ht, by omega⟩
    · intro a b hab hb
      obtain ⟨t, hD, _, _, _, heol, _⟩ := Delete_content s hinv a b hab hb
      exact ⟨t, hD, by omega⟩
    · intro k hk
      obtain ⟨t, ht, _, _, heol, _⟩ := DeleteEnd_post s hinv k hk
      exact ⟨t, ht, by omega⟩

theorem eolLength_range_witness :
    (∀ n, n ≤ ALIGN_BUF_SIZE 64 n) ∧ sampleSource.m_nEolChars ≤ 2 ∧ Inv sampleSource ∧
    ∃ b t, ChangeEol (ALIGN_BUF_SIZE 64) (fun _ => 1) sampleSource ([13, 10] ++ 0 :: [])
        = some (b, t) ∧
      t.m_nEolChars = [13, 10].length ∧ ([13, 10].length ≤ 2 → t.m_nEolChars ≤ 2) :=
  ⟨ALIGN_BUF_SIZE_ge 64 (by decide), by decide, Inv_sampleSource,
   ((eolLength_range (ALIGN_BUF_SIZE 64) (ALIGN_BUF_SIZE_ge 64 (by decide)) (fun _ => 1)
      sampleSource (by decide)).2.2.2.2.2 Inv_sampleSource).2.1 [13, 10] [] (by decide)⟩

/-- C12 as stated fails: on the line `ab` with a line-feed as end-of-line unit, `ChangeEol` with
the three-unit literal `xyz` returns true and leaves `m_nEolChars = 3`. -/
theorem ChangeEol_three_unit_literal :
    sampleSource.m_nEolChars = 1 ∧
    ∃ t, ChangeEol (ALIGN_BUF_SIZE 64) (fun _ => 1) sampleSource [120, 121, 122, 0]
        = some (true, t) ∧
      t.m_nEolChars = 3 ∧ t.eol = [120, 121, 122] ∧ t.body = [97, 98] :=
  ⟨rfl, _, rfl, by decide, by decide, by decide⟩

end LineInfo
